import Mathlib

/-!
Verification of the FLiSaMM save-profile and mod manager core
(`src/managers.py` together with the orchestration handlers of
`src/main.py`) against its natural-language specification.

The Python code is shallowly embedded: the file system visible to the
manager is explicit state (association lists from names to byte lists),
archives are lists of named members, JSON documents are a small inductive
type, and every Python method becomes a Lean function on that state.
Methods that can raise an exception on the modelled paths return `Option`
(`none` = the call raised and did not complete).
-/

namespace FLiSaMM

/-- File contents: a byte sequence, modelled as a list of naturals. -/
abbrev Bytes := List Nat

/-! ### Association-list primitives

Python dictionaries and directory listings are modelled as association
lists.  `insertA` replaces an existing binding in place (as assigning to
an existing dict key / overwriting an existing file does) and otherwise
appends, preserving insertion order exactly as Python dicts do. -/

/-- Look up the first binding of key `k`. -/
def lookupA (k : String) : List (String × α) → Option α
  | [] => none
  | (a, b) :: l => if a = k then some b else lookupA k l

/-- Whether a binding for key `k` is present. -/
def containsKey (k : String) (l : List (String × α)) : Bool :=
  l.any (fun p => p.1 = k)

/-- Insert/replace binding `k ↦ v`: overwrite in place if present, else append. -/
def insertA (k : String) (v : α) : List (String × α) → List (String × α)
  | [] => [(k, v)]
  | (a, b) :: l => if a = k then (k, v) :: l else (a, b) :: insertA k v l

/-- Remove every binding of key `k`. -/
def eraseA (k : String) (l : List (String × α)) : List (String × α) :=
  l.filter (fun p => ¬ (p.1 = k))

theorem lookupA_eq_none {k : String} {l : List (String × α)} :
    lookupA k l = none ↔ containsKey k l = false := by
  induction l with
  | nil => simp [lookupA, containsKey]
  | cons p l ih =>
    obtain ⟨a, b⟩ := p
    by_cases h : a = k <;> simp [lookupA, containsKey, h, ih]

theorem lookupA_isSome_iff {k : String} {l : List (String × α)} :
    (lookupA k l).isSome = true ↔ containsKey k l = true := by
  rcases h : lookupA k l with _ | v
  · simp [lookupA_eq_none.mp h]
  · have : ¬ containsKey k l = false := by
      intro hc
      rw [← lookupA_eq_none (k := k)] at hc
      simp [h] at hc
    simp at this
    simp [this]

theorem lookupA_insertA (k k' : String) (v : α) (l : List (String × α)) :
    lookupA k' (insertA k v l) = if k = k' then some v else lookupA k' l := by
  induction l with
  | nil =>
    by_cases h : k = k' <;> simp [insertA, lookupA, h]
  | cons p l ih =>
    obtain ⟨a, b⟩ := p
    by_cases hak : a = k
    · subst hak
      by_cases h : a = k' <;> simp [insertA, lookupA, h]
    · by_cases h : a = k'
      · subst h
        have hk : ¬ k = a := fun hh => hak hh.symm
        simp [insertA, lookupA, hak, hk]
      · simp [insertA, lookupA, hak, h, ih]

theorem lookupA_eraseA (k k' : String) (l : List (String × α)) :
    lookupA k' (eraseA k l) = if k = k' then none else lookupA k' l := by
  induction l with
  | nil => simp [eraseA, lookupA]
  | cons p l ih =>
    obtain ⟨a, b⟩ := p
    by_cases hak : a = k
    · subst hak
      have : eraseA a ((a, b) :: l) = eraseA a l := by simp [eraseA]
      rw [this, ih]
      by_cases h : a = k' <;> simp [lookupA, h]
    · have : eraseA k ((a, b) :: l) = (a, b) :: eraseA k l := by
        simp [eraseA, hak]
      rw [this]
      by_cases h : a = k'
      · subst h
        have hk : ¬ k = a := fun hh => hak hh.symm
        simp [lookupA, hk]
      · simp [lookupA, h, ih]

/-! ### Profile metadata data model

Mirrors the JSON document managed by `SaveProfileManager`
(`src/managers.py`): `{ active_slot_uuid, slots: { <id>: { name,
backup_counter, active_save_timestamp?, backups: { <id>: { name,
timestamp } } } } }`.  Timestamps (Python floats) are modelled as
naturals; only their identity matters to the claims. -/

/-- One backup record inside a slot's `backups` mapping. -/
structure BackupData where
  name : String
  timestamp : Nat
deriving DecidableEq, Repr

/-- One slot record inside the profile's `slots` mapping.
`active_save_timestamp` is an optional field of the JSON object. -/
structure SlotData where
  name : String
  backup_counter : Nat
  backups : List (String × BackupData)
  active_save_timestamp : Option Nat
deriving DecidableEq, Repr

/-- The profile metadata document held in memory by `SaveProfileManager`. -/
structure Metadata where
  active_slot_uuid : Option String
  slots : List (String × SlotData)
deriving DecidableEq, Repr

/-- The default metadata `_load_metadata` falls back to when the file is
missing or unparsable: `{"active_slot_uuid": None, "slots": {}}`. -/
def defaultMetadata : Metadata := { active_slot_uuid := none, slots := [] }

/-! ### JSON documents

`_save_metadata` serialises the in-memory dict with `json.dump` and
`_load_metadata` reads it back with `json.load`.  The file's content is
modelled as a JSON value; a missing or textually corrupt file is the
`none` case of an `Option Json`. -/

/-- A JSON value. -/
inductive Json where
  | null : Json
  | bool : Bool → Json
  | num : Nat → Json
  | str : String → Json
  | arr : List Json → Json
  | obj : List (String × Json) → Json

/-- Serialisation of a backup record, field for field. -/
def encodeBackup (b : BackupData) : Json :=
  .obj [("timestamp", .num b.timestamp), ("name", .str b.name)]

/-- Serialisation of a slot record.  The `active_save_timestamp` key is
present exactly when the Python dict holds it. -/
def encodeSlot (s : SlotData) : Json :=
  .obj ([("name", .str s.name),
         ("backup_counter", .num s.backup_counter),
         ("backups", .obj (s.backups.map (fun p => (p.1, encodeBackup p.2))))]
    ++ (match s.active_save_timestamp with
        | some t => [("active_save_timestamp", .num t)]
        | none => []))

/-- Serialisation of the whole metadata document, as `_save_metadata`
persists it. -/
def encodeMetadata (m : Metadata) : Json :=
  .obj [("active_slot_uuid",
          match m.active_slot_uuid with
          | some u => .str u
          | none => .null),
        ("slots", .obj (m.slots.map (fun p => (p.1, encodeSlot p.2))))]

/-- Decodes every value of a JSON object through `f`, failing if any
member fails; preserves member order. -/
def decodeEntries (f : Json → Option α) :
    List (String × Json) → Option (List (String × α))
  | [] => some []
  | (k, j) :: l =>
    match f j, decodeEntries f l with
    | some v, some r => some ((k, v) :: r)
    | _, _ => none

/-- Reads a backup record back from its JSON object. -/
def decodeBackup : Json → Option BackupData
  | .obj fields =>
    match lookupA "name" fields, lookupA "timestamp" fields with
    | some (.str n), some (.num t) => some { name := n, timestamp := t }
    | _, _ => none
  | _ => none

/-- Reads a slot record back from its JSON object. -/
def decodeSlot : Json → Option SlotData
  | .obj fields =>
    match lookupA "name" fields, lookupA "backup_counter" fields,
        lookupA "backups" fields with
    | some (.str n), some (.num c), some (.obj bs) =>
      match decodeEntries decodeBackup bs with
      | some backups =>
        match lookupA "active_save_timestamp" fields with
        | some (.num t) =>
          some { name := n, backup_counter := c, backups := backups,
                 active_save_timestamp := some t }
        | none =>
          some { name := n, backup_counter := c, backups := backups,
                 active_save_timestamp := none }
        | some _ => none
      | none => none
    | _, _, _ => none
  | _ => none

/-- Reads a metadata document back from its JSON value. -/
def decodeMetadata : Json → Option Metadata
  | .obj fields =>
    match lookupA "slots" fields with
    | some (.obj ss) =>
      match decodeEntries decodeSlot ss with
      | some slots =>
        match lookupA "active_slot_uuid" fields with
        | some .null => some { active_slot_uuid := none, slots := slots }
        | some (.str u) => some { active_slot_uuid := some u, slots := slots }
        | _ => none
      | none => none
    | _ => none
  | _ => none

/-- `SaveProfileManager._load_metadata`: a missing document or one that
fails to parse degrades to the default `{active_slot_uuid: None, slots: {}}`. -/
def load_metadata (file : Option Json) : Metadata :=
  match file with
  | none => defaultMetadata
  | some j => (decodeMetadata j).getD defaultMetadata

/-- `SaveProfileManager._save_metadata`: the document written to
`metadata.json` is the serialisation of the in-memory metadata. -/
def save_metadata_doc (m : Metadata) : Json := encodeMetadata m

theorem decodeBackup_encodeBackup (b : BackupData) :
    decodeBackup (encodeBackup b) = some b := by
  simp [decodeBackup, encodeBackup, lookupA]

theorem decodeEntries_encodeBackup (bs : List (String × BackupData)) :
    decodeEntries decodeBackup (bs.map (fun p => (p.1, encodeBackup p.2)))
      = some bs := by
  induction bs with
  | nil => rfl
  | cons p l ih =>
    obtain ⟨k, b⟩ := p
    simp [decodeEntries, decodeBackup_encodeBackup, ih]

theorem decodeSlot_encodeSlot (s : SlotData) :
    decodeSlot (encodeSlot s) = some s := by
  obtain ⟨n, c, bs, ts⟩ := s
  cases ts <;>
    simp [decodeSlot, encodeSlot, lookupA, decodeEntries_encodeBackup]

theorem decodeEntries_encodeSlot (ss : List (String × SlotData)) :
    decodeEntries decodeSlot (ss.map (fun p => (p.1, encodeSlot p.2)))
      = some ss := by
  induction ss with
  | nil => rfl
  | cons p l ih =>
    obtain ⟨k, s⟩ := p
    simp [decodeEntries, decodeSlot_encodeSlot, ih]

theorem decodeMetadata_encodeMetadata (m : Metadata) :
    decodeMetadata (encodeMetadata m) = some m := by
  obtain ⟨act, ss⟩ := m
  cases act <;>
    simp [decodeMetadata, encodeMetadata, lookupA, decodeEntries_encodeSlot]

/-- C6: for every well-formed profile metadata value, persisting it with
`_save_metadata` and reading it back with `_load_metadata` yields the same
value (`load(save(x)) = x`). -/
theorem metadata_load_save_roundtrip (m : Metadata) :
    load_metadata (some (save_metadata_doc m)) = m := by
  simp [load_metadata, save_metadata_doc, decodeMetadata_encodeMetadata]


/-! ### String predicates

`str.endswith(...)` and friends are re-implemented over the character
list of the string so that they evaluate by kernel reduction. -/

/-- `s.endswith(suf)`. -/
def strEndsWith (s suf : String) : Bool :=
  List.isPrefixOf suf.data.reverse s.data.reverse

/-- A file name the save manager treats as part of the live save-file
set: the two suffix tests used by every clearing/archiving loop in
`SaveProfileManager` (`item.endswith("gamedata.bin") or
item.endswith(".binbak")`). -/
def isLiveName (n : String) : Bool :=
  strEndsWith n "gamedata.bin" || strEndsWith n ".binbak"

/-! ### Profile file-system state

`SaveProfileManager` sees: the files directly in the profile root, the
per-slot directories under `_manager_data/slots` (each holding an
optional `active_save.zip` and backup archives keyed by backup id), the
in-memory metadata and the persisted `metadata.json`.  An archive is its
list of members (arcname ↦ bytes). -/

/-- An archive: member name ↦ member bytes, in archive order. -/
abbrev Zip := List (String × Bytes)

/-- The contents of one slot directory `_manager_data/slots/<uuid>`. -/
structure SlotDir where
  activeSave : Option Zip
  backups : List (String × Zip)
deriving DecidableEq, Repr

/-- The state of one profile as seen by `SaveProfileManager`: root files,
slot directories (presence in the list = the directory exists), in-memory
metadata and the persisted metadata document. -/
structure SPState where
  root : List (String × Bytes)
  slotDirs : List (String × SlotDir)
  meta : Metadata
  metaFile : Option Json

/-- The two kinds of persistent writes the ordering claims talk about:
an archive (`.zip`) file write and a `metadata.json` write. -/
inductive Event where
  | zipWrite : Event
  | metaWrite : Event
deriving DecidableEq, Repr

/-- `has_active_save_file`: some root file name ends in `gamedata.bin`. -/
def has_active_save_file (st : SPState) : Bool :=
  st.root.any (fun p => strEndsWith p.1 "gamedata.bin")

/-- The members `save_active_game_state`/`create_new_backup` put in an
archive: every root file whose name ends in `gamedata.bin` or `.binbak`,
in listing order. -/
def liveZip (st : SPState) : Zip :=
  st.root.filter (fun p => isLiveName p.1)

/-- Removal loop shared by the clearing paths: delete every root file
whose name ends in `gamedata.bin` or `.binbak`. -/
def clearLiveFiles (root : List (String × Bytes)) : List (String × Bytes) :=
  root.filter (fun p => ¬ isLiveName p.1 = true)

/-- `zf.extractall(self.path)`: write every archive member into the root,
overwriting files of the same name. -/
def extractAll (zip : Zip) (root : List (String × Bytes)) :
    List (String × Bytes) :=
  zip.foldl (fun r m => insertA m.1 m.2 r) root

/-- `SaveProfileManager.save_active_game_state` (src/managers.py:199).
Returns the new state and its write trace, or `none` when the call raises
(slot directory missing for the archive write, or the slot absent from
`slots` for the timestamp update); the claims only quantify over calls
that complete. -/
def save_active_game_state (now : Nat) (u : String) (st : SPState) :
    Option (SPState × List Event) :=
  if has_active_save_file st = false then some (st, [])
  else
    match lookupA u st.slotDirs with
    | none => none
    | some dir =>
      let dirs' := insertA u
        ({ dir with activeSave := some (liveZip st) }) st.slotDirs
      match lookupA u st.meta.slots with
      | none => none
      | some sd =>
        let meta' : Metadata :=
          { st.meta with
            slots := insertA u
              ({ sd with active_save_timestamp := some now }) st.meta.slots }
        some ({ st with
                  slotDirs := dirs'
                  meta := meta'
                  metaFile := some (encodeMetadata meta') },
          [Event.zipWrite, Event.metaWrite])

/-- `SaveProfileManager.load_active_save_for_slot` (src/managers.py:216).
If the slot's `active_save.zip` is absent, returns `False` and changes
nothing; otherwise clears the live files, extracts the archive over the
root, sets `active_slot_uuid` and persists the metadata. -/
def load_active_save_for_slot (u : String) (st : SPState) :
    SPState × Bool × List Event :=
  match (lookupA u st.slotDirs).bind (fun d => d.activeSave) with
  | none => (st, false, [])
  | some zip =>
    let root' := extractAll zip (clearLiveFiles st.root)
    let meta' : Metadata := { st.meta with active_slot_uuid := some u }
    ({ st with
         root := root'
         meta := meta'
         metaFile := some (encodeMetadata meta') },
     true, [Event.metaWrite])

/-- `SaveProfileManager.create_new_backup` (src/managers.py:233): archive
the live files as backup `b` of slot `u`, then record it and bump
`backup_counter`.  Returns `False` without touching anything when no live
save file exists; `none` when the call raises. -/
def create_new_backup (now : Nat) (u b name : String) (st : SPState) :
    Option (SPState × Bool × List Event) :=
  if has_active_save_file st = false then some (st, false, [])
  else
    match lookupA u st.slotDirs with
    | none => none
    | some dir =>
      let dirs' := insertA u
        ({ dir with backups := insertA b (liveZip st) dir.backups }) st.slotDirs
      match lookupA u st.meta.slots with
      | none => none
      | some sd =>
        let sd' : SlotData :=
          { sd with
            backups := insertA b ({ timestamp := now, name := name }) sd.backups,
            backup_counter := sd.backup_counter + 1 }
        let meta' : Metadata := { st.meta with slots := insertA u sd' st.meta.slots }
        some ({ st with
                  slotDirs := dirs'
                  meta := meta'
                  metaFile := some (encodeMetadata meta') },
          true, [Event.zipWrite, Event.metaWrite])

/-- `SaveProfileManager.initialize_from_game_save` (src/managers.py:183):
make the slot directory, record the new slot, set it active, persist the
metadata, then snapshot the live files via `save_active_game_state`. -/
def initialize_from_game_save (now : Nat) (u name : String) (st : SPState) :
    Option (SPState × List Event) :=
  let dirs1 := if containsKey u st.slotDirs then st.slotDirs
    else insertA u ({ activeSave := none, backups := [] }) st.slotDirs
  let meta1 : Metadata :=
    { active_slot_uuid := some u,
      slots := insertA u
        ({ name := name, backup_counter := 1, backups := [],
           active_save_timestamp := some now }) st.meta.slots }
  let st1 : SPState :=
    { st with
        slotDirs := dirs1
        meta := meta1
        metaFile := some (encodeMetadata meta1) }
  (save_active_game_state now u st1).map (fun p => (p.1, Event.metaWrite :: p.2))

/-- `SaveProfileManager.copy_slot_to` (src/managers.py:255): replace the
destination's slot directory for `u` with a copy of the source's
(`rmtree` + `copytree`), copy the metadata record verbatim, persist the
destination metadata.  `none` when the source slot directory or record is
absent (the call raises). -/
def copy_slot_to (src dst : SPState) (u : String) :
    Option (SPState × List Event) :=
  match lookupA u src.slotDirs with
  | none => none
  | some dir =>
    match lookupA u src.meta.slots with
    | none => none
    | some sd =>
      let meta' : Metadata := { dst.meta with slots := insertA u sd dst.meta.slots }
      some ({ dst with
                slotDirs := insertA u dir dst.slotDirs
                meta := meta'
                metaFile := some (encodeMetadata meta') },
        [Event.metaWrite])

/-! ### Supporting lemmas about the file-system primitives -/

theorem containsKey_eq_isSome (k : String) (l : List (String × α)) :
    containsKey k l = (lookupA k l).isSome := by
  rcases h : lookupA k l with _ | v
  · simp [lookupA_eq_none.mp h]
  · have : ¬ containsKey k l = false := by
      intro hc
      rw [← lookupA_eq_none (k := k)] at hc
      simp [h] at hc
    simp at this
    simp [this]

theorem containsKey_insertA (k k' : String) (v : α) (l : List (String × α)) :
    containsKey k' (insertA k v l) = (decide (k = k') || containsKey k' l) := by
  rw [containsKey_eq_isSome, containsKey_eq_isSome, lookupA_insertA]
  by_cases h : k = k' <;> simp [h]

theorem containsKey_eraseA (k k' : String) (l : List (String × α)) :
    containsKey k' (eraseA k l) = if k = k' then false else containsKey k' l := by
  rw [containsKey_eq_isSome, containsKey_eq_isSome, lookupA_eraseA]
  by_cases h : k = k' <;> simp [h]

theorem containsKey_append (k : String) (l1 l2 : List (String × α)) :
    containsKey k (l1 ++ l2) = (containsKey k l1 || containsKey k l2) := by
  simp [containsKey, List.any_append]

theorem insertA_not_contains {k : String} {l : List (String × α)}
    (h : containsKey k l = false) (v : α) :
    insertA k v l = l ++ [(k, v)] := by
  induction l with
  | nil => rfl
  | cons p l ih =>
    obtain ⟨a, b⟩ := p
    simp [containsKey] at h
    simp [insertA, h.1, ih (by simp [containsKey]; exact h.2)]

theorem clearLiveFiles_not_contains {root : List (String × Bytes)} {m : String}
    (hm : isLiveName m = true) :
    containsKey m (clearLiveFiles root) = false := by
  induction root with
  | nil => rfl
  | cons p l ih =>
    obtain ⟨a, b⟩ := p
    by_cases h : isLiveName a = true
    · have hc : clearLiveFiles ((a, b) :: l) = clearLiveFiles l := by
        simp [clearLiveFiles, h]
      rw [hc]; exact ih
    · have hne : ¬ a = m := fun he => h (he ▸ hm)
      have hc : clearLiveFiles ((a, b) :: l) = (a, b) :: clearLiveFiles l := by
        simp [clearLiveFiles, h]
      rw [hc]
      simpa [containsKey, hne] using ih

theorem lookupA_clearLiveFiles {root : List (String × Bytes)} {n : String}
    (hn : isLiveName n = false) :
    lookupA n (clearLiveFiles root) = lookupA n root := by
  induction root with
  | nil => rfl
  | cons p l ih =>
    obtain ⟨a, b⟩ := p
    by_cases h : isLiveName a = true
    · have hne : ¬ a = n := by
        intro he; rw [he, hn] at h; exact Bool.false_ne_true h
      have hc : clearLiveFiles ((a, b) :: l) = clearLiveFiles l := by
        simp [clearLiveFiles, h]
      rw [hc, ih]
      simp [lookupA, hne]
    · have hc : clearLiveFiles ((a, b) :: l) = (a, b) :: clearLiveFiles l := by
        simp [clearLiveFiles, h]
      rw [hc]
      by_cases he : a = n
      · simp [lookupA, he]
      · simp [lookupA, he, ih]

theorem extractAll_fresh :
    ∀ (zip : Zip) (root : List (String × Bytes)),
      (∀ m ∈ zip, containsKey m.1 root = false) →
      (zip.map Prod.fst).Nodup →
      extractAll zip root = root ++ zip := by
  intro zip
  induction zip with
  | nil => intro root _ _; simp [extractAll]
  | cons m rest ih =>
    intro root hfresh hnodup
    obtain ⟨n, c⟩ := m
    rw [List.map_cons, List.nodup_cons] at hnodup
    have h1 : containsKey n root = false := hfresh (n, c) (by simp)
    have hstep : extractAll ((n, c) :: rest) root
        = extractAll rest (root ++ [(n, c)]) := by
      simp [extractAll, insertA_not_contains h1]
    rw [hstep, ih (root ++ [(n, c)])]
    · simp
    · intro m hm
      have hne : ¬ n = m.1 := by
        intro he
        have hmem : m.1 ∈ List.map Prod.fst rest :=
          List.mem_map_of_mem Prod.fst hm
        exact hnodup.1 (by simpa [he] using hmem)
      have hm1 : containsKey m.1 root = false :=
        hfresh m (by simp [hm])
      rw [containsKey_append, hm1]
      simp [containsKey, hne]
    · exact hnodup.2

/-! ### C2: save-then-load round trip on the live file set -/

/-- A concrete profile whose root holds a live-set file (`a.binbak`) but no
file ending in `gamedata.bin`, and whose slot `u` exists with an empty
slot directory. -/
def c2CexState : SPState :=
  { root := [("a.binbak", [1])]
    slotDirs := [("u", { activeSave := none, backups := [] })]
    meta := { active_slot_uuid := none,
              slots := [("u", { name := "S", backup_counter := 1,
                                backups := [], active_save_timestamp := none })] }
    metaFile := none }

/-- C2 counterexample: the profile root contains a live save file set in
the claim's sense (a file ending in `.binbak`), slot `u` exists, yet
`save_active_game_state("u")` is a no-op (`has_active_save_file` looks
only for `gamedata.bin`) and the following `load_active_save_for_slot`
returns failure, contradicting the claimed guaranteed success. -/
theorem save_then_load_cex :
    c2CexState.root.any (fun p => isLiveName p.1) = true ∧
    (lookupA "u" c2CexState.meta.slots).isSome = true ∧
    save_active_game_state 0 "u" c2CexState = some (c2CexState, []) ∧
    (load_active_save_for_slot "u" c2CexState).2.1 = false :=
  ⟨by decide, by decide, rfl, rfl⟩

/-- C2 (amended): if the profile root actually contains a file ending in
`gamedata.bin` (the condition `save_active_game_state` tests), the root
listing has no duplicate names, and slot `u` has both its directory and
its metadata record, then `save_active_game_state(u)` followed by
`load_active_save_for_slot(u)` succeeds and leaves the live file set
(files ending in `gamedata.bin` or `.binbak`) byte-identical to its
pre-save state. -/
theorem load_with_archive (u : String) (st : SPState) (zip : Zip)
    (h : (lookupA u st.slotDirs).bind (fun d => d.activeSave) = some zip) :
    load_active_save_for_slot u st =
      ({ st with
           root := extractAll zip (clearLiveFiles st.root)
           meta := { st.meta with active_slot_uuid := some u }
           metaFile := some (encodeMetadata
             { st.meta with active_slot_uuid := some u }) },
       true, [Event.metaWrite]) := by
  unfold load_active_save_for_slot
  rw [h]

theorem save_then_load_restores_live_set (now : Nat) (u : String)
    (st : SPState)
    (hroot : (st.root.map Prod.fst).Nodup)
    (hlive : has_active_save_file st = true)
    (hdir : (lookupA u st.slotDirs).isSome = true)
    (hslot : (lookupA u st.meta.slots).isSome = true) :
    ∃ st1 ev, save_active_game_state now u st = some (st1, ev) ∧
      (load_active_save_for_slot u st1).2.1 = true ∧
      (load_active_save_for_slot u st1).1.root.filter (fun p => isLiveName p.1)
        = st.root.filter (fun p => isLiveName p.1) := by
  obtain ⟨dir, hdir⟩ := Option.isSome_iff_exists.mp hdir
  obtain ⟨sd, hsd⟩ := Option.isSome_iff_exists.mp hslot
  have hnf : ¬ has_active_save_file st = false := by simp [hlive]
  refine ⟨⟨st.root, insertA u ({ dir with activeSave := some (liveZip st) }) st.slotDirs, { st.meta with slots := insertA u ({ sd with active_save_timestamp := some now }) st.meta.slots }, some (encodeMetadata ({ st.meta with slots := insertA u ({ sd with active_save_timestamp := some now }) st.meta.slots }))⟩, [Event.zipWrite, Event.metaWrite], ?_, ?_, ?_⟩
  · unfold save_active_game_state
    rw [if_neg hnf, hdir, hsd]
  all_goals
    have harch : (lookupA u (insertA u
          ({ dir with activeSave := some (liveZip st) }) st.slotDirs)).bind
        (fun d => d.activeSave) = some (liveZip st) := by
      rw [lookupA_insertA]
      simp
  · rw [load_with_archive _ _ _ harch]
  · rw [load_with_archive _ _ _ harch]
    have hfresh : ∀ m ∈ liveZip st,
        containsKey m.1 (clearLiveFiles st.root) = false := by
      intro m hm
      have hm2 : isLiveName m.1 = true := by
        simpa using (List.mem_filter.mp hm).2
      exact clearLiveFiles_not_contains hm2
    have hnod : ((liveZip st).map Prod.fst).Nodup :=
      hroot.sublist (List.Sublist.map Prod.fst (List.filter_sublist _))
    have hext : extractAll (liveZip st) (clearLiveFiles st.root)
        = clearLiveFiles st.root ++ liveZip st :=
      extractAll_fresh _ _ hfresh hnod
    have h1 : (clearLiveFiles st.root).filter (fun p => isLiveName p.1) = [] := by
      simp only [clearLiveFiles, List.filter_filter]
      apply List.filter_eq_nil_iff.mpr
      intro p _
      by_cases h : isLiveName p.1 = true <;> simp [h]
    have h2 : (liveZip st).filter (fun p => isLiveName p.1) = liveZip st := by
      apply List.filter_eq_self.mpr
      intro p hp
      simpa using (List.mem_filter.mp hp).2
    show (extractAll (liveZip st) (clearLiveFiles st.root)).filter
        (fun p => isLiveName p.1) = st.root.filter (fun p => isLiveName p.1)
    rw [hext, List.filter_append, h1, h2]
    rfl

/-- A profile root with a real `gamedata.bin`, used to instantiate the
amended C2 theorem. -/
def c2WitnessState : SPState :=
  { root := [("gamedata.bin", [7]), ("notes.txt", [0])]
    slotDirs := [("u", { activeSave := none, backups := [] })]
    meta := { active_slot_uuid := some "u",
              slots := [("u", { name := "S", backup_counter := 1,
                                backups := [], active_save_timestamp := none })] }
    metaFile := none }

/-- Witness instantiating the amended C2 theorem on `c2WitnessState`. -/
theorem save_then_load_restores_live_set_witness :
    ((c2WitnessState.root.map Prod.fst).Nodup ∧
      has_active_save_file c2WitnessState = true ∧
      (lookupA "u" c2WitnessState.slotDirs).isSome = true ∧
      (lookupA "u" c2WitnessState.meta.slots).isSome = true) ∧
    ∃ st1 ev, save_active_game_state 3 "u" c2WitnessState = some (st1, ev) ∧
      (load_active_save_for_slot "u" st1).2.1 = true ∧
      (load_active_save_for_slot "u" st1).1.root.filter (fun p => isLiveName p.1)
        = c2WitnessState.root.filter (fun p => isLiveName p.1) :=
  ⟨⟨by decide, by decide, by decide, by decide⟩,
    save_then_load_restores_live_set 3 "u" c2WitnessState
      (by decide) (by decide) (by decide) (by decide)⟩

/-! ### C3: archive writes precede metadata writes -/

/-- A write trace orders every archive write before every metadata write
exactly when it lies in `zipWrite* metaWrite*`. -/
def zipThenMeta (ev : List Event) : Bool :=
  (ev.dropWhile (fun e => e = Event.zipWrite)).all (fun e => e = Event.metaWrite)

/-- A profile with a live `gamedata.bin` and no slots yet: the state from
which the first slot is initialised. -/
def c3State : SPState :=
  { root := [("gamedata.bin", [1])]
    slotDirs := []
    meta := defaultMetadata
    metaFile := none }

/-- C3 counterexample: `initialize_from_game_save` completes successfully
on `c3State` but its write trace is `metaWrite, zipWrite, metaWrite` —
the new slot's record (already carrying `active_save_timestamp`) is
persisted by the `_save_metadata()` call at src/managers.py:196 before
`save_active_game_state` writes the archive, so a metadata write does
occur while the archive it describes does not yet exist. -/
theorem initialize_meta_write_first_cex :
    (initialize_from_game_save 0 "u" "First" c3State).map
        (fun r => r.2) = some [Event.metaWrite, Event.zipWrite, Event.metaWrite] ∧
    (initialize_from_game_save 0 "u" "First" c3State).map
        (fun r => zipThenMeta r.2) = some false :=
  ⟨rfl, rfl⟩

/-- C3 (amended): for `save_active_game_state` and `create_new_backup`,
every call that completes writes the archive before the metadata
document (trace in `zipWrite* metaWrite*`); `initialize_from_game_save`
is excluded because it persists the metadata once before archiving. -/
theorem archive_write_before_metadata_write :
    (∀ (now : Nat) (u : String) (st : SPState) r,
      save_active_game_state now u st = some r → zipThenMeta r.2 = true) ∧
    (∀ (now : Nat) (u b name : String) (st : SPState) r,
      create_new_backup now u b name st = some r → zipThenMeta r.2.2 = true) := by
  constructor
  · intro now u st r h
    unfold save_active_game_state at h
    split at h
    · cases h; rfl
    · rcases h1 : lookupA u st.slotDirs with _ | dir <;> rw [h1] at h
      · cases h
      · rcases h2 : lookupA u st.meta.slots with _ | sd <;> rw [h2] at h
        · cases h
        · cases h; rfl
  · intro now u b name st r h
    unfold create_new_backup at h
    split at h
    · cases h; rfl
    · rcases h1 : lookupA u st.slotDirs with _ | dir <;> rw [h1] at h
      · cases h
      · rcases h2 : lookupA u st.meta.slots with _ | sd <;> rw [h2] at h
        · cases h
        · cases h; rfl

/-- Witness instantiating the amended C3 theorem: a concrete successful
save and a concrete successful backup, both with ordered traces. -/
theorem archive_write_before_metadata_write_witness :
    (∃ r, save_active_game_state 1 "u" c2WitnessState = some r ∧
      zipThenMeta r.2 = true) ∧
    (∃ r, create_new_backup 1 "u" "b1" "Backup - 0001" c2WitnessState = some r ∧
      zipThenMeta r.2.2 = true) :=
  ⟨⟨_, rfl, archive_write_before_metadata_write.1 1 "u" c2WitnessState _ rfl⟩,
   ⟨_, rfl, archive_write_before_metadata_write.2 1 "u" "b1" "Backup - 0001"
      c2WitnessState _ rfl⟩⟩

/-! ### C9: copying a slot into another profile -/

/-- C9: `copy_slot_to(dest, u)` (for a slot present in the source, as its
uses guarantee) always overwrites the destination's slot directory and
metadata record for `u` with the source's, verbatim and under the same
identifier, and leaves the destination's `active_slot_uuid`, its root
files, and its entries for every other identifier unchanged. -/
theorem copy_slot_to_overwrites_and_frames (src dst : SPState) (u : String)
    (hdir : (lookupA u src.slotDirs).isSome = true)
    (hsd : (lookupA u src.meta.slots).isSome = true) :
    ∃ r, copy_slot_to src dst u = some r ∧
      lookupA u r.1.slotDirs = lookupA u src.slotDirs ∧
      lookupA u r.1.meta.slots = lookupA u src.meta.slots ∧
      r.1.meta.active_slot_uuid = dst.meta.active_slot_uuid ∧
      r.1.root = dst.root ∧
      (∀ v, ¬ u = v → lookupA v r.1.slotDirs = lookupA v dst.slotDirs) ∧
      (∀ v, ¬ u = v → lookupA v r.1.meta.slots = lookupA v dst.meta.slots) := by
  obtain ⟨dir, hdir⟩ := Option.isSome_iff_exists.mp hdir
  obtain ⟨sd, hsd⟩ := Option.isSome_iff_exists.mp hsd
  refine ⟨(⟨dst.root, insertA u dir dst.slotDirs, { dst.meta with slots := insertA u sd dst.meta.slots }, some (encodeMetadata { dst.meta with slots := insertA u sd dst.meta.slots })⟩, [Event.metaWrite]), ?_, ?_, ?_, rfl, rfl, ?_, ?_⟩
  · unfold copy_slot_to
    rw [hdir, hsd]
  · show lookupA u (insertA u dir dst.slotDirs) = lookupA u src.slotDirs
    rw [lookupA_insertA, hdir]
    simp
  · show lookupA u (insertA u sd dst.meta.slots) = lookupA u src.meta.slots
    rw [lookupA_insertA, hsd]
    simp
  · intro v hv
    show lookupA v (insertA u dir dst.slotDirs) = lookupA v dst.slotDirs
    rw [lookupA_insertA, if_neg hv]
  · intro v hv
    show lookupA v (insertA u sd dst.meta.slots) = lookupA v dst.meta.slots
    rw [lookupA_insertA, if_neg hv]

/-- A destination profile that already holds a conflicting entry for `u`,
used to instantiate the C9 theorem (the copy must overwrite it). -/
def c9DstState : SPState :=
  { root := [("gamedata.bin", [9])]
    slotDirs := [("u", { activeSave := some [("gamedata.bin", [5])], backups := [] }),
                 ("w", { activeSave := none, backups := [] })]
    meta := { active_slot_uuid := some "w",
              slots := [("u", { name := "Old", backup_counter := 4,
                                backups := [], active_save_timestamp := some 2 }),
                        ("w", { name := "Other", backup_counter := 1,
                                backups := [], active_save_timestamp := none })] }
    metaFile := none }

/-- Witness instantiating the C9 theorem: copying slot `u` of
`c2WitnessState` into `c9DstState`. -/
theorem copy_slot_to_overwrites_and_frames_witness :
    ((lookupA "u" c2WitnessState.slotDirs).isSome = true ∧
      (lookupA "u" c2WitnessState.meta.slots).isSome = true) ∧
    ∃ r, copy_slot_to c2WitnessState c9DstState "u" = some r ∧
      lookupA "u" r.1.slotDirs = lookupA "u" c2WitnessState.slotDirs ∧
      lookupA "u" r.1.meta.slots = lookupA "u" c2WitnessState.meta.slots ∧
      r.1.meta.active_slot_uuid = c9DstState.meta.active_slot_uuid ∧
      r.1.root = c9DstState.root ∧
      (∀ v, ¬ "u" = v → lookupA v r.1.slotDirs = lookupA v c9DstState.slotDirs) ∧
      (∀ v, ¬ "u" = v → lookupA v r.1.meta.slots = lookupA v c9DstState.meta.slots) :=
  ⟨⟨by decide, by decide⟩,
    copy_slot_to_overwrites_and_frames c2WitnessState c9DstState "u"
      (by decide) (by decide)⟩

/-! ### Orchestration handlers (src/main.py)

The `FLiModManager` handlers wrap the manager operations with the
game-running gate, confirmation dialogs and the empty-slot load path.
Dialog answers and the `is_game_running` flag are parameters.  Handlers
that can raise on the modelled paths return `Option`; `none` means the
call raised and did not complete. -/

/-- How a handler call ended: refused by the game-running gate, returned
without doing anything (guard or declined dialog), or performed its
operation. -/
inductive UIResult where
  | blocked : UIResult
  | noop : UIResult
  | done : UIResult
deriving DecidableEq, Repr

/-- `_load_active_save_for_slot` (src/main.py:936): refuse while the game
runs; otherwise snapshot the currently loaded slot (when it is a
different one and live files exist), then either prepare the empty slot
(no archive: clear live files, set it active, drop its stale timestamp)
or load its archive via the manager. -/
def ui_load_active_save_for_slot (running : Bool) (now : Nat) (u : String)
    (st : SPState) : Option (SPState × UIResult) :=
  if running then some (st, .blocked)
  else
    let step1 : Option SPState :=
      match st.meta.active_slot_uuid with
      | some c =>
        if ¬ c = u ∧ has_active_save_file st = true
        then (save_active_game_state now c st).map Prod.fst
        else some st
      | none => some st
    match step1 with
    | none => none
    | some st1 =>
      match (lookupA u st1.slotDirs).bind (fun d => d.activeSave) with
      | none =>
        match lookupA u st1.meta.slots with
        | none => none
        | some sd =>
          let meta2 : Metadata :=
            { active_slot_uuid := some u,
              slots := insertA u ({ sd with active_save_timestamp := none })
                st1.meta.slots }
          some (⟨clearLiveFiles st1.root, st1.slotDirs, meta2,
            some (encodeMetadata meta2)⟩, .done)
      | some _ => some ((load_active_save_for_slot u st1).1, .done)

/-- `_delete_slot` (src/main.py:1078): look up the slot (raises if
absent), confirm, refuse only when the slot is the loaded one and the
game runs; a loaded slot additionally clears `active_slot_uuid` and the
live files after a second confirmation; then remove the slot directory
and record and persist. -/
def ui_delete_slot (running confirm1 confirm2 : Bool) (u : String)
    (st : SPState) : Option (SPState × UIResult) :=
  match lookupA u st.meta.slots with
  | none => none
  | some _ =>
    if confirm1 = false then some (st, .noop)
    else if st.meta.active_slot_uuid = some u then
      if running then some (st, .blocked)
      else if confirm2 = false then some (st, .noop)
      else
        let meta2 : Metadata :=
          { active_slot_uuid := none, slots := eraseA u st.meta.slots }
        some (⟨clearLiveFiles st.root, eraseA u st.slotDirs, meta2,
          some (encodeMetadata meta2)⟩, .done)
    else
      let meta2 : Metadata :=
        { st.meta with slots := eraseA u st.meta.slots }
      some (⟨st.root, eraseA u st.slotDirs, meta2,
        some (encodeMetadata meta2)⟩, .done)

/-- `_activate_backup` (src/main.py:994): refuse while the game runs;
optionally auto-backup the currently loaded slot; extract the backup
archive over the live directory (without clearing it first), set the slot
active, persist, then re-baseline with `save_active_game_state`. -/
def ui_activate_backup (running doAuto : Bool) (autoId : String) (now : Nat)
    (u b : String) (st : SPState) : Option (SPState × UIResult) :=
  if running then some (st, .blocked)
  else
    let step1 : Option SPState :=
      match st.meta.active_slot_uuid with
      | some c =>
        if has_active_save_file st = true then
          match lookupA c st.meta.slots with
          | none => none
          | some _ =>
            if doAuto
            then (create_new_backup now c autoId "Auto-Backup" st).map
              (fun r => r.1)
            else some st
        else some st
      | none => some st
    match step1 with
    | none => none
    | some st1 =>
      match (lookupA u st1.slotDirs).bind (fun d => lookupA b d.backups) with
      | none => none
      | some zip =>
        let meta1 : Metadata := { st1.meta with active_slot_uuid := some u }
        let st2 : SPState := ⟨extractAll zip st1.root, st1.slotDirs, meta1,
          some (encodeMetadata meta1)⟩
        (save_active_game_state now u st2).map (fun r => (r.1, UIResult.done))

/-- `_create_new_slot` (src/main.py:1034): record a new empty slot (no
timestamp, no backups — and no slot directory) and persist. -/
def ui_create_new_slot (u name : String) (st : SPState) : SPState :=
  let meta2 : Metadata :=
    { st.meta with
        slots := insertA u
          ({ name := name, backup_counter := 1, backups := [],
             active_save_timestamp := none }) st.meta.slots }
  ⟨st.root, st.slotDirs, meta2, some (encodeMetadata meta2)⟩

/-- `_rename_slot` (src/main.py:1056): update the slot's name and
persist. -/
def ui_rename_slot (u name : String) (st : SPState) : Option SPState :=
  match lookupA u st.meta.slots with
  | none => none
  | some sd =>
    let meta2 : Metadata :=
      { st.meta with slots := insertA u ({ sd with name := name }) st.meta.slots }
    some ⟨st.root, st.slotDirs, meta2, some (encodeMetadata meta2)⟩

/-- `_create_new_backup` (src/main.py:1115): derive the default name from
`backup_counter` and delegate to the manager. -/
def ui_create_new_backup (now : Nat) (u b : String) (st : SPState) :
    Option (SPState × Bool) :=
  match lookupA u st.meta.slots with
  | none => none
  | some sd =>
    (create_new_backup now u b ("Backup - " ++ toString sd.backup_counter) st).map
      (fun r => (r.1, r.2.1))

/-- `_rename_backup` (src/main.py:1133): update the backup's name and
persist. -/
def ui_rename_backup (u b name : String) (st : SPState) : Option SPState :=
  match lookupA u st.meta.slots with
  | none => none
  | some sd =>
    match lookupA b sd.backups with
    | none => none
    | some bd =>
      let meta2 : Metadata :=
        { st.meta with slots := insertA u ({ sd with backups := insertA b ({ bd with name := name }) sd.backups }) st.meta.slots }
      some ⟨st.root, st.slotDirs, meta2, some (encodeMetadata meta2)⟩

/-- `_delete_backup` (src/main.py:1161): after confirmation, remove the
backup archive (if its directory exists) and its record, and persist. -/
def ui_delete_backup (confirm : Bool) (u b : String) (st : SPState) :
    Option (SPState × UIResult) :=
  match lookupA u st.meta.slots with
  | none => none
  | some sd =>
    match lookupA b sd.backups with
    | none => none
    | some _ =>
      if confirm = false then some (st, .noop)
      else
        let dirs' :=
          match lookupA u st.slotDirs with
          | some d => insertA u ({ d with backups := eraseA b d.backups })
              st.slotDirs
          | none => st.slotDirs
        let meta2 : Metadata :=
          { st.meta with
              slots := insertA u ({ sd with backups := eraseA b sd.backups })
                st.meta.slots }
        some (⟨st.root, dirs', meta2, some (encodeMetadata meta2)⟩, .done)

/-! ### C7: the game-running gate -/

/-- C7 counterexample: with the game running, deleting a slot that is not
the loaded one (`"v"` while `"u"` is loaded) is not refused — the handler
completes (`done`, not `blocked`) and removes the slot record, because
`_delete_slot` checks `is_game_running` only when `is_loaded` holds. -/
theorem delete_not_blocked_while_running_cex :
    (ui_delete_slot true true true "v"
        (⟨[("gamedata.bin", [7])],
          [("u", { activeSave := none, backups := [] }),
           ("v", { activeSave := none, backups := [] })],
          { active_slot_uuid := some "u",
            slots := [("u", { name := "A", backup_counter := 1, backups := [],
                              active_save_timestamp := none }),
                      ("v", { name := "B", backup_counter := 1, backups := [],
                              active_save_timestamp := none })] },
          none⟩ : SPState)).map
      (fun r => (r.2, containsKey "v" r.1.meta.slots)) = some (.done, false) :=
  rfl

/-- C7 (amended): while the game-running flag is set, loading a slot's
active save, activating a backup, and deleting the *loaded* slot are each
refused at the handler boundary with a `blocked` result and return the
state unchanged.  (Deleting a non-loaded slot is not gated, and
`toggle_mod_status` has no in-handler check at all — the UI merely
disables its switch.) -/
theorem game_running_blocks_destructive_ops :
    (∀ (now : Nat) (u : String) (st : SPState),
      ui_load_active_save_for_slot true now u st = some (st, .blocked)) ∧
    (∀ (doAuto : Bool) (autoId : String) (now : Nat) (u b : String)
        (st : SPState),
      ui_activate_backup true doAuto autoId now u b st = some (st, .blocked)) ∧
    (∀ (confirm2 : Bool) (u : String) (st : SPState),
      st.meta.active_slot_uuid = some u →
      (lookupA u st.meta.slots).isSome = true →
      ui_delete_slot true true confirm2 u st = some (st, .blocked)) := by
  refine ⟨fun now u st => rfl, fun doAuto autoId now u b st => rfl, ?_⟩
  intro confirm2 u st hact hslot
  obtain ⟨sd, hsd⟩ := Option.isSome_iff_exists.mp hslot
  unfold ui_delete_slot
  rw [hsd]
  simp [hact]

/-- Witness instantiating the C7 gate theorem, with the deletion part run
on a state whose loaded slot is `"u"`. -/
theorem game_running_blocks_destructive_ops_witness :
    (ui_load_active_save_for_slot true 0 "u" c2WitnessState
      = some (c2WitnessState, .blocked)) ∧
    (ui_activate_backup true false "a1" 0 "u" "b1" c2WitnessState
      = some (c2WitnessState, .blocked)) ∧
    ((c2WitnessState.meta.active_slot_uuid = some "u" ∧
      (lookupA "u" c2WitnessState.meta.slots).isSome = true) ∧
      ui_delete_slot true true true "u" c2WitnessState
        = some (c2WitnessState, .blocked)) :=
  ⟨game_running_blocks_destructive_ops.1 0 "u" c2WitnessState,
   game_running_blocks_destructive_ops.2.1 false "a1" 0 "u" "b1" c2WitnessState,
   ⟨⟨by decide, by decide⟩,
    game_running_blocks_destructive_ops.2.2 true "u" c2WitnessState
      (by decide) (by decide)⟩⟩

/-! ### C10: the clearing paths touch only live-named root files -/

/-- All members of an archive carry live-set names. -/
def allLiveMembers (zip : Zip) : Bool :=
  zip.all (fun m => isLiveName m.1)

/-- Every archive stored under the profile's slot directories has only
live-named members — true of every archive this program writes, since
both archiving loops filter on the live suffixes. -/
def liveArchivesOnlyB (st : SPState) : Bool :=
  st.slotDirs.all (fun p =>
    (match p.2.activeSave with
     | some z => allLiveMembers z
     | none => true) &&
    p.2.backups.all (fun q => allLiveMembers q.2))

theorem lookupA_mem {k : String} {l : List (String × α)} {v : α}
    (h : lookupA k l = some v) : (k, v) ∈ l := by
  induction l with
  | nil => cases h
  | cons p l ih =>
    obtain ⟨a, b⟩ := p
    by_cases ha : a = k
    · subst ha
      simp [lookupA] at h
      simp [h]
    · simp [lookupA, ha] at h
      simp [ih h]

theorem extractAll_lookup_far {zip : Zip} {n : String}
    (h : ∀ m ∈ zip, ¬ m.1 = n) :
    ∀ root, lookupA n (extractAll zip root) = lookupA n root := by
  induction zip with
  | nil => intro root; rfl
  | cons m rest ih =>
    intro root
    have hstep : extractAll (m :: rest) root
        = extractAll rest (insertA m.1 m.2 root) := rfl
    rw [hstep, ih (fun m' hm' => h m' (by simp [hm'])), lookupA_insertA,
      if_neg (h m (by simp))]

theorem save_root_unchanged {now : Nat} {u : String} {st : SPState} {r}
    (h : save_active_game_state now u st = some r) : r.1.root = st.root := by
  unfold save_active_game_state at h
  split at h
  · cases h; rfl
  · rcases h1 : lookupA u st.slotDirs with _ | dir <;> rw [h1] at h
    · cases h
    · rcases h2 : lookupA u st.meta.slots with _ | sd <;> rw [h2] at h
      · cases h
      · cases h; rfl

theorem mem_insertA {k : String} {v : α} {l : List (String × α)} {p} :
    p ∈ insertA k v l → p = (k, v) ∨ p ∈ l := by
  induction l with
  | nil => intro h; simp [insertA] at h; simp [h]
  | cons q l ih =>
    obtain ⟨a, b⟩ := q
    by_cases ha : a = k
    · subst ha
      intro h
      simp [insertA] at h
      rcases h with h | h
      · exact Or.inl h
      · exact Or.inr (by simp [h])
    · intro h
      simp [insertA, ha] at h
      rcases h with h | h
      · exact Or.inr (by simp [h])
      · rcases ih h with h2 | h2
        · exact Or.inl h2
        · exact Or.inr (by simp [h2])

theorem save_preserves_liveArchives {now : Nat} {u : String} {st : SPState}
    {r} (h : save_active_game_state now u st = some r)
    (hw : liveArchivesOnlyB st = true) : liveArchivesOnlyB r.1 = true := by
  unfold save_active_game_state at h
  split at h
  · cases h; exact hw
  · rcases h1 : lookupA u st.slotDirs with _ | dir <;> rw [h1] at h
    · cases h
    · rcases h2 : lookupA u st.meta.slots with _ | sd <;> rw [h2] at h
      · cases h
      · cases h
        rw [liveArchivesOnlyB, List.all_eq_true]
        intro p hp
        rcases mem_insertA hp with hpe | hpm
        · subst hpe
          have hdir : ((match dir.activeSave with
              | some z => allLiveMembers z
              | none => true) &&
              dir.backups.all (fun q => allLiveMembers q.2)) = true := by
            have := (List.all_eq_true.mp hw) _ (lookupA_mem h1)
            simpa using this
          simp only [Bool.and_eq_true] at hdir ⊢
          refine ⟨?_, hdir.2⟩
          show allLiveMembers (liveZip st) = true
          rw [allLiveMembers, List.all_eq_true]
          intro m hm
          simpa using (List.mem_filter.mp hm).2
        · exact (List.all_eq_true.mp hw) _ hpm

theorem liveArchives_activeSave {st : SPState} {u : String} {zip : Zip}
    (hw : liveArchivesOnlyB st = true)
    (h : (lookupA u st.slotDirs).bind (fun d => d.activeSave) = some zip) :
    ∀ m ∈ zip, isLiveName m.1 = true := by
  rcases h1 : lookupA u st.slotDirs with _ | d <;> rw [h1] at h
  · cases h
  · rw [Option.some_bind] at h
    have hp := (List.all_eq_true.mp hw) _ (lookupA_mem h1)
    simp only [Bool.and_eq_true] at hp
    have := hp.1
    rw [h] at this
    simp only [allLiveMembers, List.all_eq_true] at this
    intro m hm
    simpa using this m hm

theorem load_root_frame (u : String) (st : SPState)
    (hw : liveArchivesOnlyB st = true) :
    (∀ n, isLiveName n = false →
      lookupA n (load_active_save_for_slot u st).1.root = lookupA n st.root) ∧
    (load_active_save_for_slot u st).1.slotDirs = st.slotDirs := by
  rcases harch : (lookupA u st.slotDirs).bind (fun d => d.activeSave) with _ | zip
  · unfold load_active_save_for_slot
    rw [harch]
    exact ⟨fun n _ => rfl, rfl⟩
  · have hmem := liveArchives_activeSave hw harch
    rw [load_with_archive u st zip harch]
    refine ⟨?_, rfl⟩
    intro n hn
    have hfar : ∀ m ∈ zip, ¬ m.1 = n := by
      intro m hm he
      have hl := hmem m hm
      rw [he, hn] at hl
      exact Bool.false_ne_true hl
    show lookupA n (extractAll zip (clearLiveFiles st.root)) = lookupA n st.root
    rw [extractAll_lookup_far hfar, lookupA_clearLiveFiles hn]

/-- C10 counterexample: deleting the loaded slot `"u"` completes and
empties the profile's slot-directory tree under `_manager_data` —
contradicting the claim that the `_manager_data` directory holding slot
archives and metadata is left unchanged. -/
theorem delete_slot_changes_manager_data_cex :
    (ui_delete_slot false true true "u" c2WitnessState).map
      (fun r => (r.2, r.1.slotDirs)) = some (.done, []) ∧
    ¬ c2WitnessState.slotDirs = [] :=
  ⟨rfl, by decide⟩

/-- C10 (amended): the three clearing paths remove from the profile root
only files whose names end in `gamedata.bin` or `.binbak`, leaving every
other root file unchanged (for loads, provided the stored archives hold
only live-named members, as every archive this program writes does).  The
manager-level load also leaves every slot directory unchanged, and slot
deletion leaves every *other* slot's directory unchanged — but the
operations do rewrite the metadata document, and deletion removes the
deleted slot's directory, so `_manager_data` is not untouched. -/
theorem clearing_ops_touch_only_live_files :
    (∀ (u : String) (st : SPState), liveArchivesOnlyB st = true →
      (∀ n, isLiveName n = false →
        lookupA n (load_active_save_for_slot u st).1.root = lookupA n st.root) ∧
      (load_active_save_for_slot u st).1.slotDirs = st.slotDirs) ∧
    (∀ (running : Bool) (now : Nat) (u : String) (st : SPState) r,
      ui_load_active_save_for_slot running now u st = some r →
      liveArchivesOnlyB st = true →
      ∀ n, isLiveName n = false → lookupA n r.1.root = lookupA n st.root) ∧
    (∀ (running c1 c2 : Bool) (u : String) (st : SPState) r,
      ui_delete_slot running c1 c2 u st = some r →
      (∀ n, isLiveName n = false → lookupA n r.1.root = lookupA n st.root) ∧
      (∀ v, ¬ u = v → lookupA v r.1.slotDirs = lookupA v st.slotDirs)) := by
  refine ⟨load_root_frame, ?_, ?_⟩
  · intro running now u st r h hw n hn
    unfold ui_load_active_save_for_slot at h
    split at h
    · cases h; rfl
    · dsimp only [] at h
      rcases hact : st.meta.active_slot_uuid with _ | c <;> rw [hact] at h
      all_goals try dsimp only [] at h
      case _ =>
        rcases harch : (lookupA u st.slotDirs).bind (fun d => d.activeSave)
          with _ | zip <;> rw [harch] at h
        · rcases hsd : lookupA u st.meta.slots with _ | sd <;> rw [hsd] at h
          · cases h
          · cases h
            exact lookupA_clearLiveFiles hn
        · cases h
          exact (load_root_frame u st hw).1 n hn
      case _ =>
        split at h
        · exact absurd h (by simp)
        · rename_i st1 heq
          have hmain : st1.root = st.root ∧ liveArchivesOnlyB st1 = true := by
            split at heq
            · rcases hsave : save_active_game_state now c st with _ | rs <;>
                rw [hsave] at heq
              · cases heq
              · injection heq with heq
                rw [← heq]
                exact ⟨save_root_unchanged hsave,
                  save_preserves_liveArchives hsave hw⟩
            · injection heq with heq
              rw [← heq]
              exact ⟨rfl, hw⟩
          rcases harch : (lookupA u st1.slotDirs).bind (fun d => d.activeSave)
            with _ | zip <;> rw [harch] at h
          · rcases hsd : lookupA u st1.meta.slots with _ | sd <;> rw [hsd] at h
            · cases h
            · cases h
              show lookupA n (clearLiveFiles st1.root) = lookupA n st.root
              rw [lookupA_clearLiveFiles hn, hmain.1]
          · cases h
            rw [(load_root_frame u st1 hmain.2).1 n hn, hmain.1]
  · intro running c1 c2 u st r h
    unfold ui_delete_slot at h
    rcases hsd : lookupA u st.meta.slots with _ | sd <;> rw [hsd] at h
    · cases h
    · dsimp only [] at h
      split at h
      · cases h; exact ⟨fun n _ => rfl, fun v _ => rfl⟩
      · split at h
        · split at h
          · cases h; exact ⟨fun n _ => rfl, fun v _ => rfl⟩
          · split at h
            · cases h; exact ⟨fun n _ => rfl, fun v _ => rfl⟩
            · cases h
              refine ⟨fun n hn => lookupA_clearLiveFiles hn, fun v hv => ?_⟩
              show lookupA v (eraseA u st.slotDirs) = lookupA v st.slotDirs
              rw [lookupA_eraseA, if_neg hv]
        · cases h
          refine ⟨fun n hn => rfl, fun v hv => ?_⟩
          show lookupA v (eraseA u st.slotDirs) = lookupA v st.slotDirs
          rw [lookupA_eraseA, if_neg hv]

/-- Witness instantiating the amended C10 theorem: all three clearing
paths leave the non-live root file `notes.txt` in place on concrete
states. -/
theorem clearing_ops_touch_only_live_files_witness :
    (liveArchivesOnlyB c2WitnessState = true ∧ isLiveName "notes.txt" = false ∧
      lookupA "notes.txt" (load_active_save_for_slot "u" c2WitnessState).1.root
        = lookupA "notes.txt" c2WitnessState.root) ∧
    (∃ r, ui_load_active_save_for_slot false 0 "u" c2WitnessState = some r ∧
      lookupA "notes.txt" r.1.root = lookupA "notes.txt" c2WitnessState.root) ∧
    (∃ r, ui_delete_slot false true true "u" c2WitnessState = some r ∧
      lookupA "notes.txt" r.1.root = lookupA "notes.txt" c2WitnessState.root ∧
      lookupA "w" r.1.slotDirs = lookupA "w" c2WitnessState.slotDirs) :=
  ⟨⟨by decide, by decide,
    (clearing_ops_touch_only_live_files.1 "u" c2WitnessState (by decide)).1
      "notes.txt" (by decide)⟩,
   ⟨_, rfl,
    clearing_ops_touch_only_live_files.2.1 false 0 "u" c2WitnessState _ rfl
      (by decide) "notes.txt" (by decide)⟩,
   ⟨_, rfl,
    (clearing_ops_touch_only_live_files.2.2 false true true "u" c2WitnessState
      _ rfl).1 "notes.txt" (by decide),
    (clearing_ops_touch_only_live_files.2.2 false true true "u" c2WitnessState
      _ rfl).2 "w" (by decide)⟩⟩

/-! ### C1: the active-slot invariant -/

/-- The invariant claimed of the metadata: `active_slot_uuid` is null or
keys an existing entry of `slots`. -/
def metaInvB (m : Metadata) : Bool :=
  match m.active_slot_uuid with
  | none => true
  | some u => containsKey u m.slots

theorem metaInvB_none (slots : List (String × SlotData)) :
    metaInvB ⟨none, slots⟩ = true := rfl

theorem metaInvB_of_contains {u : String} {slots : List (String × SlotData)}
    (h : containsKey u slots = true) : metaInvB ⟨some u, slots⟩ = true := h

theorem metaInvB_insert {act : Option String} {slots : List (String × SlotData)}
    (h : metaInvB ⟨act, slots⟩ = true) (k : String) (v : SlotData) :
    metaInvB ⟨act, insertA k v slots⟩ = true := by
  cases act with
  | none => rfl
  | some a =>
    have ha : containsKey a slots = true := h
    show containsKey a (insertA k v slots) = true
    rw [containsKey_insertA]
    simp [ha]

theorem metaInvB_insert_self (u : String) (v : SlotData)
    (slots : List (String × SlotData)) :
    metaInvB ⟨some u, insertA u v slots⟩ = true := by
  show containsKey u (insertA u v slots) = true
  rw [containsKey_insertA]
  simp

theorem metaInvB_erase {act : Option String} {slots : List (String × SlotData)}
    {u : String} (h : metaInvB ⟨act, slots⟩ = true) (hne : ¬ act = some u) :
    metaInvB ⟨act, eraseA u slots⟩ = true := by
  cases act with
  | none => rfl
  | some a =>
    have ha : containsKey a slots = true := h
    have hau : ¬ u = a := fun he => hne (by rw [he])
    show containsKey a (eraseA u slots) = true
    rw [containsKey_eraseA, if_neg hau]
    exact ha

theorem save_meta_inv {now : Nat} {u : String} {st : SPState} {r}
    (h : save_active_game_state now u st = some r)
    (hi : metaInvB st.meta = true) : metaInvB r.1.meta = true := by
  unfold save_active_game_state at h
  split at h
  · cases h; exact hi
  · rcases h1 : lookupA u st.slotDirs with _ | dir <;> rw [h1] at h
    · cases h
    · rcases h2 : lookupA u st.meta.slots with _ | sd <;> rw [h2] at h
      · cases h
      · cases h
        exact metaInvB_insert (by
          cases hm : st.meta
          rw [hm] at hi
          exact hi) u _

theorem save_meta_contains {now : Nat} {u w : String} {st : SPState} {r}
    (h : save_active_game_state now u st = some r)
    (hw : containsKey w st.meta.slots = true) :
    containsKey w r.1.meta.slots = true := by
  unfold save_active_game_state at h
  split at h
  · cases h; exact hw
  · rcases h1 : lookupA u st.slotDirs with _ | dir <;> rw [h1] at h
    · cases h
    · rcases h2 : lookupA u st.meta.slots with _ | sd <;> rw [h2] at h
      · cases h
      · cases h
        show containsKey w (insertA u _ st.meta.slots) = true
        rw [containsKey_insertA]
        simp [hw]

theorem backup_meta_inv {now : Nat} {u b name : String} {st : SPState} {r}
    (h : create_new_backup now u b name st = some r)
    (hi : metaInvB st.meta = true) : metaInvB r.1.meta = true := by
  unfold create_new_backup at h
  split at h
  · cases h; exact hi
  · rcases h1 : lookupA u st.slotDirs with _ | dir <;> rw [h1] at h
    · cases h
    · rcases h2 : lookupA u st.meta.slots with _ | sd <;> rw [h2] at h
      · cases h
      · cases h
        exact metaInvB_insert (by
          cases hm : st.meta
          rw [hm] at hi
          exact hi) u _

theorem backup_meta_contains {now : Nat} {u b name w : String} {st : SPState}
    {r} (h : create_new_backup now u b name st = some r)
    (hw : containsKey w st.meta.slots = true) :
    containsKey w r.1.meta.slots = true := by
  unfold create_new_backup at h
  split at h
  · cases h; exact hw
  · rcases h1 : lookupA u st.slotDirs with _ | dir <;> rw [h1] at h
    · cases h
    · rcases h2 : lookupA u st.meta.slots with _ | sd <;> rw [h2] at h
      · cases h
      · cases h
        show containsKey w (insertA u _ st.meta.slots) = true
        rw [containsKey_insertA]
        simp [hw]

theorem load_meta_inv {u : String} {st : SPState}
    (hi : metaInvB st.meta = true)
    (hu : containsKey u st.meta.slots = true) :
    metaInvB (load_active_save_for_slot u st).1.meta = true := by
  unfold load_active_save_for_slot
  rcases harch : (lookupA u st.slotDirs).bind (fun d => d.activeSave)
    with _ | zip
  · exact hi
  · exact metaInvB_of_contains hu

theorem ui_load_meta_inv {running : Bool} {now : Nat} {u : String}
    {st : SPState} {r} (h : ui_load_active_save_for_slot running now u st = some r)
    (hi : metaInvB st.meta = true)
    (hu : containsKey u st.meta.slots = true) : metaInvB r.1.meta = true := by
  unfold ui_load_active_save_for_slot at h
  split at h
  · cases h; exact hi
  · dsimp only [] at h
    rcases hact : st.meta.active_slot_uuid with _ | c <;> rw [hact] at h
    all_goals try dsimp only [] at h
    case _ =>
      rcases harch : (lookupA u st.slotDirs).bind (fun d => d.activeSave)
        with _ | zip <;> rw [harch] at h
      · rcases hsd : lookupA u st.meta.slots with _ | sd <;> rw [hsd] at h
        · cases h
        · cases h
          exact metaInvB_insert_self u _ _
      · cases h
        exact load_meta_inv hi hu
    case _ =>
      split at h
      · exact absurd h (by simp)
      · rename_i st1 heq
        have hmain : metaInvB st1.meta = true ∧
            containsKey u st1.meta.slots = true := by
          split at heq
          · rcases hsave : save_active_game_state now c st with _ | rs <;>
              rw [hsave] at heq
            · cases heq
            · injection heq with heq
              rw [← heq]
              exact ⟨save_meta_inv hsave hi, save_meta_contains hsave hu⟩
          · injection heq with heq
            rw [← heq]
            exact ⟨hi, hu⟩
        rcases harch : (lookupA u st1.slotDirs).bind (fun d => d.activeSave)
          with _ | zip <;> rw [harch] at h
        · rcases hsd : lookupA u st1.meta.slots with _ | sd <;> rw [hsd] at h
          · cases h
          · cases h
            exact metaInvB_insert_self u _ _
        · cases h
          exact load_meta_inv hmain.1 hmain.2

theorem ui_activate_meta_inv {running doAuto : Bool} {autoId : String}
    {now : Nat} {u b : String} {st : SPState} {r}
    (h : ui_activate_backup running doAuto autoId now u b st = some r)
    (hi : metaInvB st.meta = true)
    (hu : containsKey u st.meta.slots = true) : metaInvB r.1.meta = true := by
  unfold ui_activate_backup at h
  split at h
  · cases h; exact hi
  · dsimp only [] at h
    rcases hact : st.meta.active_slot_uuid with _ | c <;> rw [hact] at h
    all_goals try dsimp only [] at h
    case _ =>
      rcases harch : (lookupA u st.slotDirs).bind (fun d => lookupA b d.backups)
        with _ | zip <;> rw [harch] at h
      · cases h
      · rw [Option.map_eq_some'] at h
        obtain ⟨rs, hsave, hr⟩ := h
        rw [← hr]
        exact save_meta_inv hsave (metaInvB_of_contains hu)
    case _ =>
      split at h
      · exact absurd h (by simp)
      · rename_i st1 heq
        have hmain : containsKey u st1.meta.slots = true := by
          split at heq
          · rcases hc : lookupA c st.meta.slots with _ | sdc <;> rw [hc] at heq
            · cases heq
            · dsimp only [] at heq
              split at heq
              · rcases hbk : create_new_backup now c autoId "Auto-Backup" st
                  with _ | rc <;> rw [hbk] at heq
                · cases heq
                · injection heq with heq
                  rw [← heq]
                  exact backup_meta_contains hbk hu
              · injection heq with heq
                rw [← heq]
                exact hu
          · injection heq with heq
            rw [← heq]
            exact hu
        rcases harch : (lookupA u st1.slotDirs).bind (fun d => lookupA b d.backups)
          with _ | zip <;> rw [harch] at h
        · cases h
        · rw [Option.map_eq_some'] at h
          obtain ⟨rs, hsave, hr⟩ := h
          rw [← hr]
          exact save_meta_inv hsave (metaInvB_of_contains hmain)

theorem ui_delete_meta_inv {running confirm1 confirm2 : Bool} {u : String}
    {st : SPState} {r} (h : ui_delete_slot running confirm1 confirm2 u st = some r)
    (hi : metaInvB st.meta = true) : metaInvB r.1.meta = true := by
  unfold ui_delete_slot at h
  rcases hsd : lookupA u st.meta.slots with _ | sd <;> rw [hsd] at h
  · cases h
  · dsimp only [] at h
    split at h
    · cases h; exact hi
    · split at h
      · split at h
        · cases h; exact hi
        · split at h
          · cases h; exact hi
          · cases h
            exact metaInvB_none _
      · rename_i hne
        cases h
        refine metaInvB_erase ?_ ?_
        · cases hm : st.meta
          rw [hm] at hi
          exact hi
        · cases hm : st.meta
          rw [hm] at hne
          exact hne

theorem ui_create_slot_meta_inv {u name : String} {st : SPState}
    (hi : metaInvB st.meta = true) :
    metaInvB (ui_create_new_slot u name st).meta = true :=
  metaInvB_insert hi u _

theorem ui_rename_slot_meta_inv {u name : String} {st : SPState} {r1}
    (h : ui_rename_slot u name st = some r1)
    (hi : metaInvB st.meta = true) : metaInvB r1.meta = true := by
  unfold ui_rename_slot at h
  rcases hsd : lookupA u st.meta.slots with _ | sd <;> rw [hsd] at h
  · cases h
  · cases h
    exact metaInvB_insert hi u _

theorem ui_rename_backup_meta_inv {u b name : String} {st : SPState} {r1}
    (h : ui_rename_backup u b name st = some r1)
    (hi : metaInvB st.meta = true) : metaInvB r1.meta = true := by
  unfold ui_rename_backup at h
  rcases hsd : lookupA u st.meta.slots with _ | sd <;> rw [hsd] at h
  · cases h
  · dsimp only [] at h
    rcases hbd : lookupA b sd.backups with _ | bd <;> rw [hbd] at h
    · cases h
    · cases h
      exact metaInvB_insert hi u _

theorem ui_delete_backup_meta_inv {confirm : Bool} {u b : String}
    {st : SPState} {r} (h : ui_delete_backup confirm u b st = some r)
    (hi : metaInvB st.meta = true) : metaInvB r.1.meta = true := by
  unfold ui_delete_backup at h
  rcases hsd : lookupA u st.meta.slots with _ | sd <;> rw [hsd] at h
  · cases h
  · dsimp only [] at h
    rcases hbd : lookupA b sd.backups with _ | bd <;> rw [hbd] at h
    · cases h
    · dsimp only [] at h
      split at h
      · cases h; exact hi
      · cases h
        exact metaInvB_insert hi u _

theorem ui_create_backup_meta_inv {now : Nat} {u b : String} {st : SPState}
    {r} (h : ui_create_new_backup now u b st = some r)
    (hi : metaInvB st.meta = true) : metaInvB r.1.meta = true := by
  unfold ui_create_new_backup at h
  rcases hsd : lookupA u st.meta.slots with _ | sd <;> rw [hsd] at h
  · cases h
  · dsimp only [] at h
    rw [Option.map_eq_some'] at h
    obtain ⟨rs, hbk, hr⟩ := h
    rw [← hr]
    exact backup_meta_inv hbk hi

theorem initialize_meta_inv {now : Nat} {u name : String} {st : SPState} {r}
    (h : initialize_from_game_save now u name st = some r) :
    metaInvB r.1.meta = true := by
  unfold initialize_from_game_save at h
  rw [Option.map_eq_some'] at h
  obtain ⟨rs, hsave, hr⟩ := h
  rw [← hr]
  show metaInvB rs.1.meta = true
  exact save_meta_inv hsave (metaInvB_insert_self u _ _)

theorem copy_meta_inv {a b : SPState} {u : String} {r}
    (h : copy_slot_to a b u = some r)
    (hi : metaInvB b.meta = true) : metaInvB r.1.meta = true := by
  unfold copy_slot_to at h
  rcases h1 : lookupA u a.slotDirs with _ | dir <;> rw [h1] at h
  · cases h
  · rcases h2 : lookupA u a.meta.slots with _ | sd <;> rw [h2] at h
    · cases h
    · cases h
      exact metaInvB_insert hi u _

/-- The core operations the C1 claim quantifies over, with the dialog
answers, the game-running flag and the generated identifiers as data.
`copyIn` is a copy of a slot from another profile into this one. -/
inductive Op where
  | createSlot (u name : String)
  | renameSlot (u name : String)
  | deleteSlot (running confirm1 confirm2 : Bool) (u : String)
  | initFromSave (now : Nat) (u name : String)
  | loadSlot (running : Bool) (now : Nat) (u : String)
  | createBackup (now : Nat) (u b : String)
  | renameBackup (u b name : String)
  | deleteBackup (confirm : Bool) (u b : String)
  | activateBackup (running doAuto : Bool) (autoId : String) (now : Nat) (u b : String)
  | copyIn (u : String) (dir : SlotDir) (sd : SlotData)

/-- Runs one operation through the handler that implements it.  A call
that raises does not complete and is modelled as leaving the state as it
was (the claim speaks of states after an operation *completes*); the two
handlers that receive their slot identifier from the rendered slot list
(`loadSlot`, `activateBackup`) are applied under that guard, since the UI
can only pass identifiers that key `slots`. -/
def applyOp (op : Op) (st : SPState) : SPState :=
  match op with
  | .createSlot u name => ui_create_new_slot u name st
  | .renameSlot u name => (ui_rename_slot u name st).getD st
  | .deleteSlot running c1 c2 u =>
    ((ui_delete_slot running c1 c2 u st).map Prod.fst).getD st
  | .initFromSave now u name =>
    ((initialize_from_game_save now u name st).map Prod.fst).getD st
  | .loadSlot running now u =>
    if containsKey u st.meta.slots
    then ((ui_load_active_save_for_slot running now u st).map Prod.fst).getD st
    else st
  | .createBackup now u b =>
    ((ui_create_new_backup now u b st).map Prod.fst).getD st
  | .renameBackup u b name => (ui_rename_backup u b name st).getD st
  | .deleteBackup confirm u b =>
    ((ui_delete_backup confirm u b st).map Prod.fst).getD st
  | .activateBackup running doAuto autoId now u b =>
    if containsKey u st.meta.slots
    then ((ui_activate_backup running doAuto autoId now u b st).map Prod.fst).getD st
    else st
  | .copyIn u dir sd =>
    ((copy_slot_to ⟨[], [(u, dir)], ⟨none, [(u, sd)]⟩, none⟩ st u).map
      Prod.fst).getD st

/-- Runs a sequence of operations left to right. -/
def applySeq (ops : List Op) (st : SPState) : SPState :=
  ops.foldl (fun s op => applyOp op s) st

theorem applyOp_meta_inv (op : Op) (st : SPState)
    (hi : metaInvB st.meta = true) : metaInvB (applyOp op st).meta = true := by
  cases op with
  | createSlot u name => exact ui_create_slot_meta_inv hi
  | renameSlot u name =>
    simp only [applyOp]
    rcases hx : ui_rename_slot u name st with _ | r1
    · exact hi
    · exact ui_rename_slot_meta_inv hx hi
  | deleteSlot running c1 c2 u =>
    simp only [applyOp]
    rcases hx : ui_delete_slot running c1 c2 u st with _ | r
    · exact hi
    · exact ui_delete_meta_inv hx hi
  | initFromSave now u name =>
    simp only [applyOp]
    rcases hx : initialize_from_game_save now u name st with _ | r
    · exact hi
    · exact initialize_meta_inv hx
  | loadSlot running now u =>
    simp only [applyOp]
    by_cases hu : containsKey u st.meta.slots = true
    · rw [if_pos hu]
      rcases hx : ui_load_active_save_for_slot running now u st with _ | r
      · exact hi
      · exact ui_load_meta_inv hx hi hu
    · rw [if_neg hu]
      exact hi
  | createBackup now u b =>
    simp only [applyOp]
    rcases hx : ui_create_new_backup now u b st with _ | r
    · exact hi
    · exact ui_create_backup_meta_inv hx hi
  | renameBackup u b name =>
    simp only [applyOp]
    rcases hx : ui_rename_backup u b name st with _ | r1
    · exact hi
    · exact ui_rename_backup_meta_inv hx hi
  | deleteBackup confirm u b =>
    simp only [applyOp]
    rcases hx : ui_delete_backup confirm u b st with _ | r
    · exact hi
    · exact ui_delete_backup_meta_inv hx hi
  | activateBackup running doAuto autoId now u b =>
    simp only [applyOp]
    by_cases hu : containsKey u st.meta.slots = true
    · rw [if_pos hu]
      rcases hx : ui_activate_backup running doAuto autoId now u b st with _ | r
      · exact hi
      · exact ui_activate_meta_inv hx hi hu
    · rw [if_neg hu]
      exact hi
  | copyIn u dir sd =>
    simp only [applyOp]
    rcases hx : copy_slot_to ⟨[], [(u, dir)], ⟨none, [(u, sd)]⟩, none⟩ st u
      with _ | r
    · exact hi
    · exact copy_meta_inv hx hi

/-- C1: starting from any profile state whose metadata satisfies the
invariant, after every sequence of core operations — and hence after
each operation of the sequence completes — `active_slot_uuid` is still
`null` or a key of `slots`. -/
theorem active_slot_uuid_invariant (ops : List Op) (st : SPState)
    (hi : metaInvB st.meta = true) :
    metaInvB (applySeq ops st).meta = true := by
  induction ops generalizing st with
  | nil => exact hi
  | cons op rest ih => exact ih (applyOp op st) (applyOp_meta_inv op st hi)

/-- Witness instantiating the C1 invariant theorem on a concrete state
and a concrete sequence exercising creation, initialisation, loading,
backup activation, copying-in and deletion. -/
theorem active_slot_uuid_invariant_witness :
    metaInvB c2WitnessState.meta = true ∧
    metaInvB (applySeq
      [Op.createSlot "a" "Empty", Op.initFromSave 1 "b" "Init",
       Op.loadSlot false 2 "a", Op.createBackup 3 "u" "bk1",
       Op.activateBackup false true "bk2" 4 "u" "bk1",
       Op.copyIn "c" ⟨none, []⟩ ⟨"C", 1, [], none⟩,
       Op.deleteSlot false true true "b"] c2WitnessState).meta = true :=
  ⟨by decide, active_slot_uuid_invariant _ c2WitnessState (by decide)⟩

/-! ### Mod manager (src/managers.py ModManager)

The game tree is files (relative path ↦ bytes) plus existing directories
(relative paths; `""` is the game root, which always exists — the path
comparisons are case-insensitive as on the Windows file system the
program targets).  String helpers re-implement the `os.path` calls over
character lists so they evaluate by kernel reduction. -/

/-- Replace every backslash by a forward slash (`.replace("\\", "/")`). -/
def normSlashes (s : String) : String :=
  ⟨s.data.map (fun c => if c = '\\' then '/' else c)⟩

/-- Lower-case a string character by character. -/
def lowerStr (s : String) : String := ⟨s.data.map Char.toLower⟩

/-- Split a character list on a separator character. -/
def splitChar (c : Char) (cs : List Char) : List (List Char) :=
  cs.foldr (fun a acc =>
    match acc with
    | [] => [[a]]
    | g :: gs => if a = c then [] :: (g :: gs) else (a :: g) :: gs) [[]]

/-- `os.path.basename` after separator normalisation. -/
def baseName (s : String) : String :=
  ⟨(splitChar '/' (normSlashes s).data).getLastD []⟩

/-- The stem `os.path.splitext` keeps: everything before the last dot,
except that leading dots never start an extension. -/
def splitextStem (s : String) : String :=
  let cs := s.data
  let lead := (cs.takeWhile (fun c => c = '.')).length
  let rest := cs.drop lead
  if rest.any (fun c => c = '.') then
    let extLen := (rest.reverse.takeWhile (fun c => ¬ c = '.')).length + 1
    ⟨cs.take (cs.length - extLen)⟩
  else s

/-- The mod name `install_mod` derives from the archive's own file name
(`os.path.splitext(os.path.basename(zip_path))[0]`). -/
def modName (zipPath : String) : String := splitextStem (baseName zipPath)

/-- The case-insensitive test for entries under the auto-created user-mods
subdirectory (`rel_path.lower().startswith("game/content/paks/~mods/")`). -/
def isModsRel (rel : String) : Bool :=
  List.isPrefixOf "game/content/paks/~mods/".data (lowerStr rel).data

/-- `os.path.dirname` of a relative path; `""` is the game root. -/
def parentDir (rel : String) : String :=
  let parts := splitChar '/' rel.data
  if parts.length ≤ 1 then ""
  else ⟨(parts.dropLast.intersperse ['/']).flatten⟩

/-- The relative paths of every ancestor directory of `rel` (created
implicitly when an archive member is extracted). -/
def ancestorDirs (rel : String) : List String :=
  let parts := (splitChar '/' rel.data).dropLast
  (List.range parts.length).map
    (fun i => (⟨((parts.take (i + 1)).intersperse ['/']).flatten⟩ : String))

/-- One archive member as `zipfile` reports it. -/
structure ZipEntry where
  filename : String
  isDir : Bool
  content : Bytes
deriving DecidableEq, Repr

/-- The part of the game tree the mod manager sees. -/
structure GameFS where
  files : List (String × Bytes)
  dirs : List String
deriving DecidableEq, Repr

/-- `os.path.isdir` under the game root, case-insensitive. -/
def dirExists (fs : GameFS) (d : String) : Bool :=
  d = "" || fs.dirs.any (fun x => lowerStr x = lowerStr d)

/-- One tracked mod of the manifest. -/
structure Mod where
  name : String
  status : String
  files : List String
deriving DecidableEq, Repr

/-- The mod manager's state: the manifest list and the game tree. -/
structure ModMgrState where
  mods : List Mod
  fs : GameFS
deriving DecidableEq, Repr

/-- Writing one extracted member: the file appears (overwriting a
same-named one) and its ancestor directories now exist. -/
def extractEntry (fs : GameFS) (rel : String) (content : Bytes) : GameFS :=
  { files := insertA rel content fs.files, dirs := fs.dirs ++ ancestorDirs rel }

/-- `os.makedirs(.../Game/Content/Paks/~mods, exist_ok=True)`. -/
def mkModsDir (fs : GameFS) : GameFS :=
  { fs with dirs := fs.dirs ++ ["Game/Content/Paks/~mods"] }

/-- The extraction loop of `install_mod`: directory entries are skipped,
entries under the user-mods subdirectory first ensure that directory,
and `failAt = some i` makes the extraction of entry `i` raise (the
injected mid-install failure of the claim).  Returns the tree, the list
of written paths, and whether the loop completed. -/
def installFiles : List ZipEntry → Nat → Option Nat → GameFS →
    List String → GameFS × List String × Bool
  | [], _, _, fs, acc => (fs, acc, true)
  | e :: rest, i, failAt, fs, acc =>
    if e.isDir then installFiles rest (i + 1) failAt fs acc
    else
      let rel := normSlashes e.filename
      let fs1 := if isModsRel rel then mkModsDir fs else fs
      if failAt = some i then (fs1, acc, false)
      else installFiles rest (i + 1) failAt (extractEntry fs1 rel e.content)
        (acc ++ [rel])

/-- Outcome of `install_mod`. -/
inductive InstallResult where
  | ok : InstallResult
  | conflict : InstallResult
  | error : InstallResult
deriving DecidableEq, Repr

/-- `ModManager.install_mod` (src/managers.py:306): refuse on a duplicate
derived name; otherwise extract every entry, and on success register the
mod (enabled, with the exact list of written paths); on failure remove
every file already written and leave the registry alone. -/
def install_mod (zipPath : String) (entries : List ZipEntry)
    (failAt : Option Nat) (st : ModMgrState) : ModMgrState × InstallResult :=
  let name := modName zipPath
  if st.mods.any (fun m => m.name = name) then (st, .conflict)
  else
    match installFiles entries 0 failAt st.fs [] with
    | (gfs, acc, true) =>
      ({ mods := st.mods ++ [{ name := name, status := "enabled", files := acc }],
         fs := gfs }, .ok)
    | (gfs, acc, false) =>
      ({ st with fs := { gfs with
          files := acc.foldl (fun fl p => eraseA p fl) gfs.files } }, .error)

/-- `ModManager.pre_install_check` (src/managers.py:343): the
non-directory entries outside the user-mods subdirectory whose
destination parent directory does not exist yet. -/
def pre_install_check (st : ModMgrState) (entries : List ZipEntry) :
    List String :=
  entries.filterMap (fun e =>
    if e.isDir then none
    else
      let rel := normSlashes e.filename
      if isModsRel rel then none
      else if dirExists st.fs (parentDir rel) then none
      else some rel)

/-- The reversible marker suffix used to disable a file. -/
def disabledName (f : String) : String := f ++ ".disabled"

/-- One `shutil.move(src, dst)` guarded by `os.path.exists(src)`: a
missing source is skipped, not an error. -/
def mvStep (fl : List (String × Bytes)) (p : String × String) :
    List (String × Bytes) :=
  match lookupA p.1 fl with
  | some c => insertA p.2 c (eraseA p.1 fl)
  | none => fl

/-- The rename loop of `toggle_mod_status`, in tracked-file order. -/
def movePairs (fl : List (String × Bytes)) (ps : List (String × String)) :
    List (String × Bytes) :=
  ps.foldl mvStep fl

/-- The source/destination pairs a toggle performs: enabled → append the
marker, disabled → strip it. -/
def togglePairs (isEnabled : Bool) (files : List String) :
    List (String × String) :=
  if isEnabled then files.map (fun f => (f, disabledName f))
  else files.map (fun f => (disabledName f, f))

/-- The `for mod in self.mods` search-and-toggle of
`ModManager.toggle_mod_status` (src/managers.py:360): the first mod with
the given name has its files renamed and its status flipped; `False`
when no mod matches. -/
def toggleInMods : List Mod → List (String × Bytes) → String →
    List Mod × List (String × Bytes) × Bool
  | [], fl, _ => ([], fl, false)
  | m :: rest, fl, name =>
    if m.name = name then
      let isEnabled := m.status = "enabled"
      ({ m with status := if isEnabled then "disabled" else "enabled" } :: rest,
       movePairs fl (togglePairs isEnabled m.files), true)
    else
      let r := toggleInMods rest fl name
      (m :: r.1, r.2)

/-- `ModManager.toggle_mod_status` on the manager state. -/
def toggle_mod_status (name : String) (st : ModMgrState) : ModMgrState × Bool :=
  let r := toggleInMods st.mods st.fs.files name
  ({ mods := r.1, fs := { st.fs with files := r.2.1 } }, r.2.2)

/-! ### C4: duplicate-name conflict and rollback on extraction failure -/

theorem installFiles_dir {e : ZipEntry} (rest : List ZipEntry) (i : Nat)
    (failAt : Option Nat) (fs : GameFS) (acc : List String)
    (hd : e.isDir = true) :
    installFiles (e :: rest) i failAt fs acc
      = installFiles rest (i + 1) failAt fs acc := by
  simp only [installFiles]
  rw [if_pos hd]

theorem installFiles_fail {e : ZipEntry} (rest : List ZipEntry) (i : Nat)
    {failAt : Option Nat} (fs : GameFS) (acc : List String)
    (hd : e.isDir = false) (hf : failAt = some i) :
    installFiles (e :: rest) i failAt fs acc
      = ((if isModsRel (normSlashes e.filename) then mkModsDir fs else fs),
         acc, false) := by
  simp only [installFiles]
  rw [if_neg (by simp [hd]), if_pos hf]

theorem installFiles_step {e : ZipEntry} (rest : List ZipEntry) (i : Nat)
    {failAt : Option Nat} (fs : GameFS) (acc : List String)
    (hd : e.isDir = false) (hf : ¬ failAt = some i) :
    installFiles (e :: rest) i failAt fs acc
      = installFiles rest (i + 1) failAt
          (extractEntry
            (if isModsRel (normSlashes e.filename) then mkModsDir fs else fs)
            (normSlashes e.filename) e.content)
          (acc ++ [normSlashes e.filename]) := by
  simp only [installFiles]
  rw [if_neg (by simp [hd]), if_neg hf]

theorem mkModsDir_cond_files (b : Bool) (fs : GameFS) :
    (if b then mkModsDir fs else fs).files = fs.files := by
  cases b <;> rfl

theorem installFiles_acc_mono :
    ∀ (entries : List ZipEntry) (i : Nat) (failAt : Option Nat) (fs : GameFS)
      (acc : List String) (x : String), x ∈ acc →
      x ∈ (installFiles entries i failAt fs acc).2.1 := by
  intro entries
  induction entries with
  | nil => intro i failAt fs acc x hx; exact hx
  | cons e rest ih =>
    intro i failAt fs acc x hx
    by_cases hd : e.isDir = true
    · rw [installFiles_dir rest i failAt fs acc hd]
      exact ih _ _ _ _ _ hx
    · have hd2 : e.isDir = false := by simpa using hd
      by_cases hf : failAt = some i
      · rw [installFiles_fail rest i fs acc hd2 hf]
        exact hx
      · rw [installFiles_step rest i fs acc hd2 hf]
        exact ih _ _ _ _ _ (by simp [hx])

theorem installFiles_files_subset :
    ∀ (entries : List ZipEntry) (i : Nat) (failAt : Option Nat) (fs : GameFS)
      (acc : List String) (n : String),
      containsKey n (installFiles entries i failAt fs acc).1.files = true →
      containsKey n fs.files = true ∨
        n ∈ (installFiles entries i failAt fs acc).2.1 := by
  intro entries
  induction entries with
  | nil => intro i failAt fs acc n h; exact Or.inl h
  | cons e rest ih =>
    intro i failAt fs acc n h
    by_cases hd : e.isDir = true
    · rw [installFiles_dir rest i failAt fs acc hd] at h ⊢
      exact ih _ _ _ _ _ h
    · have hd2 : e.isDir = false := by simpa using hd
      by_cases hf : failAt = some i
      · rw [installFiles_fail rest i fs acc hd2 hf] at h ⊢
        rw [mkModsDir_cond_files] at h
        exact Or.inl h
      · rw [installFiles_step rest i fs acc hd2 hf] at h ⊢
        rcases ih _ _ _ _ _ h with h2 | h2
        · have h3 : containsKey n (insertA (normSlashes e.filename) e.content
              ((if isModsRel (normSlashes e.filename)
                then mkModsDir fs else fs).files)) = true := h2
          rw [containsKey_insertA, mkModsDir_cond_files] at h3
          rcases Bool.or_eq_true_iff.mp h3 with h4 | h4
          · have : normSlashes e.filename = n := by simpa using h4
            refine Or.inr (installFiles_acc_mono _ _ _ _ _ _ ?_)
            simp [this]
          · exact Or.inl h4
        · exact Or.inr h2

theorem containsKey_erase_fold (ps : List String) :
    ∀ (fl : List (String × Bytes)) (n : String),
      containsKey n (ps.foldl (fun fl p => eraseA p fl) fl)
        = (containsKey n fl && !(ps.contains n)) := by
  induction ps with
  | nil => intro fl n; simp
  | cons p rest ih =>
    intro fl n
    show containsKey n (rest.foldl (fun fl p => eraseA p fl) (eraseA p fl))
      = (containsKey n fl && !((p :: rest).contains n))
    rw [ih (eraseA p fl) n, containsKey_eraseA]
    by_cases hp : p = n
    · subst hp
      simp
    · have hnp : (n == p) = false := by
        simp only [beq_eq_false_iff_ne, ne_eq]
        exact fun he => hp he.symm
      simp only [if_neg hp, List.contains_cons, hnp]
      simp

/-- C4: `install_mod` returns a `Conflict` without touching anything when
the name derived from the archive's file name is already registered; and
when extraction fails mid-install, it leaves the registry unchanged,
leaves zero new files on disk (every file name present afterwards was
present before), and has removed every path it had written. -/
theorem install_mod_conflict_and_rollback :
    (∀ (zipPath : String) (entries : List ZipEntry) (failAt : Option Nat)
        (st : ModMgrState),
      st.mods.any (fun m => m.name = modName zipPath) = true →
      install_mod zipPath entries failAt st = (st, .conflict)) ∧
    (∀ (zipPath : String) (entries : List ZipEntry) (failAt : Option Nat)
        (st : ModMgrState),
      (install_mod zipPath entries failAt st).2 = .error →
      (install_mod zipPath entries failAt st).1.mods = st.mods ∧
      (∀ n, containsKey n (install_mod zipPath entries failAt st).1.fs.files
          = true → containsKey n st.fs.files = true) ∧
      (∀ n, n ∈ (installFiles entries 0 failAt st.fs []).2.1 →
        containsKey n (install_mod zipPath entries failAt st).1.fs.files
          = false)) := by
  constructor
  · intro zipPath entries failAt st hc
    unfold install_mod
    rw [if_pos hc]
  · intro zipPath entries failAt st herr
    by_cases hc : st.mods.any (fun m => m.name = modName zipPath) = true
    · rw [show install_mod zipPath entries failAt st = (st, .conflict) from by
        unfold install_mod; rw [if_pos hc]] at herr
      simp at herr
    · rcases hres : installFiles entries 0 failAt st.fs [] with ⟨gfs, acc, ok⟩
      cases ok with
      | true =>
        rw [show install_mod zipPath entries failAt st = ({ mods := st.mods ++ [{ name := modName zipPath, status := "enabled", files := acc }], fs := gfs }, .ok) from by
          unfold install_mod; rw [if_neg hc, hres]] at herr
        simp at herr
      | false =>
        have hinst : install_mod zipPath entries failAt st = ({ st with fs := { gfs with files := acc.foldl (fun fl p => eraseA p fl) gfs.files } }, .error) := by
          unfold install_mod; rw [if_neg hc, hres]
        rw [hinst]
        refine ⟨rfl, ?_, ?_⟩
        · intro n hn
          show containsKey n st.fs.files = true
          have hn2 : containsKey n (acc.foldl (fun fl p => eraseA p fl)
              gfs.files) = true := hn
          rw [containsKey_erase_fold] at hn2
          rcases Bool.and_eq_true_iff.mp hn2 with ⟨hkey, hnmem⟩
          have h2 := installFiles_files_subset entries 0 failAt st.fs [] n
            (by rw [hres]; exact hkey)
          rw [hres] at h2
          rcases h2 with h2 | h2
          · exact h2
          · exfalso
            have : acc.contains n = true := by
              simpa using h2
            rw [this] at hnmem
            simp at hnmem
        · intro n hnacc
          have hnacc2 : n ∈ acc := hnacc
          show containsKey n (acc.foldl (fun fl p => eraseA p fl) gfs.files)
            = false
          rw [containsKey_erase_fold]
          have hcn : acc.contains n = true := by simpa using hnacc2
          rw [hcn]
          simp

/-- A registry that already holds a mod named `m`, with one unrelated
game file on disk. -/
def c4State : ModMgrState :=
  { mods := [{ name := "m", status := "enabled", files := ["old.pak"] }],
    fs := { files := [("x.txt", [0])], dirs := [] } }

/-- Witness instantiating C4: a duplicate-name install is refused
unchanged, and an install of two entries that fails at the second leaves
`x.txt` as the only file (the written `f1.pak` is removed) and the
registry as it was. -/
theorem install_mod_conflict_and_rollback_witness :
    (c4State.mods.any (fun m => m.name = modName "mods/m.zip") = true ∧
      install_mod "mods/m.zip" [⟨"f1.pak", false, [1]⟩] none c4State
        = (c4State, .conflict)) ∧
    ((install_mod "other.zip" [⟨"f1.pak", false, [1]⟩, ⟨"f2.pak", false, [2]⟩]
        (some 1) c4State).2 = .error ∧
      (install_mod "other.zip" [⟨"f1.pak", false, [1]⟩, ⟨"f2.pak", false, [2]⟩]
        (some 1) c4State).1.mods = c4State.mods ∧
      ("f1.pak" ∈ (installFiles [⟨"f1.pak", false, [1]⟩, ⟨"f2.pak", false, [2]⟩]
          0 (some 1) c4State.fs []).2.1 ∧
        containsKey "f1.pak"
          (install_mod "other.zip" [⟨"f1.pak", false, [1]⟩, ⟨"f2.pak", false, [2]⟩]
            (some 1) c4State).1.fs.files = false) ∧
      (containsKey "x.txt"
          (install_mod "other.zip" [⟨"f1.pak", false, [1]⟩, ⟨"f2.pak", false, [2]⟩]
            (some 1) c4State).1.fs.files = true →
        containsKey "x.txt" c4State.fs.files = true)) :=
  ⟨⟨by decide,
    install_mod_conflict_and_rollback.1 "mods/m.zip" [⟨"f1.pak", false, [1]⟩]
      none c4State (by decide)⟩,
   ⟨by decide,
    (install_mod_conflict_and_rollback.2 "other.zip"
      [⟨"f1.pak", false, [1]⟩, ⟨"f2.pak", false, [2]⟩] (some 1) c4State
      (by decide)).1,
    ⟨by decide,
     (install_mod_conflict_and_rollback.2 "other.zip"
       [⟨"f1.pak", false, [1]⟩, ⟨"f2.pak", false, [2]⟩] (some 1) c4State
       (by decide)).2.2 "f1.pak" (by decide)⟩,
    (install_mod_conflict_and_rollback.2 "other.zip"
      [⟨"f1.pak", false, [1]⟩, ⟨"f2.pak", false, [2]⟩] (some 1) c4State
      (by decide)).2.1 "x.txt"⟩⟩

/-! ### C8: the pre-install dry run -/

theorem installFiles_none_ok :
    ∀ (entries : List ZipEntry) (i : Nat) (fs : GameFS) (acc : List String),
      (installFiles entries i none fs acc).2.2 = true := by
  intro entries
  induction entries with
  | nil => intro i fs acc; rfl
  | cons e rest ih =>
    intro i fs acc
    by_cases hd : e.isDir = true
    · rw [installFiles_dir rest i none fs acc hd]
      exact ih _ _ _
    · rw [installFiles_step rest i fs acc (by simpa using hd) (by simp)]
      exact ih _ _ _

/-- C8: `pre_install_check` reports exactly the normalised non-directory
entry paths outside the user-mods subdirectory whose destination parent
directory does not already exist; and an archive whose file entries all
target the user-mods subdirectory gets zero problem paths reported while
`install_mod` on it (under a fresh name) succeeds — whether or not that
subdirectory already exists. -/
theorem pre_install_check_exact_and_mods_archive_ok :
    (∀ (st : ModMgrState) (entries : List ZipEntry) (p : String),
      p ∈ pre_install_check st entries ↔
        ∃ e ∈ entries, e.isDir = false ∧ normSlashes e.filename = p ∧
          isModsRel p = false ∧ dirExists st.fs (parentDir p) = false) ∧
    (∀ (zipPath : String) (st : ModMgrState) (entries : List ZipEntry),
      (∀ e ∈ entries, e.isDir = false → isModsRel (normSlashes e.filename) = true) →
      pre_install_check st entries = [] ∧
      (st.mods.any (fun m => m.name = modName zipPath) = false →
        (install_mod zipPath entries none st).2 = .ok)) := by
  constructor
  · intro st entries p
    constructor
    · intro h
      rw [pre_install_check, List.mem_filterMap] at h
      obtain ⟨e, he, hf⟩ := h
      by_cases hd : e.isDir = true
      · rw [if_pos hd] at hf; cases hf
      · rw [if_neg hd] at hf
        dsimp only [] at hf
        by_cases hm : isModsRel (normSlashes e.filename) = true
        · rw [if_pos hm] at hf; cases hf
        · rw [if_neg hm] at hf
          by_cases hdir : dirExists st.fs (parentDir (normSlashes e.filename)) = true
          · rw [if_pos hdir] at hf; cases hf
          · rw [if_neg hdir] at hf
            injection hf with hf
            refine ⟨e, he, by simpa using hd, hf, ?_, ?_⟩
            · rw [← hf]; simpa using hm
            · rw [← hf]; simpa using hdir
    · rintro ⟨e, he, hd, hrel, hm, hdir⟩
      rw [pre_install_check, List.mem_filterMap]
      refine ⟨e, he, ?_⟩
      simp only [hd, hrel, hm, hdir]
      simp [hrel]
  · intro zipPath st entries hmods
    constructor
    · rw [pre_install_check]
      apply List.filterMap_eq_nil_iff.mpr
      intro e he
      by_cases hd : e.isDir = true
      · simp [hd]
      · have := hmods e he (by simpa using hd)
        simp [hd, this]
    · intro hnc
      rcases hres : installFiles entries 0 none st.fs [] with ⟨gfs, acc, ok⟩
      have hok : ok = true := by
        have h2 := installFiles_none_ok entries 0 st.fs []
        rw [hres] at h2
        exact h2
      subst hok
      rw [show install_mod zipPath entries none st = ({ mods := st.mods ++ [{ name := modName zipPath, status := "enabled", files := acc }], fs := gfs }, .ok) from by
        unfold install_mod; rw [if_neg (by simp [hnc]), hres]]

/-- A user-mods-only archive entry set and a tree without the `~mods`
directory, instantiating C8. -/
def c8Entries : List ZipEntry :=
  [⟨"Game/Content/Paks/~mods/cool.pak", false, [3]⟩]

/-- Witness instantiating C8: a problem path is reported exactly when
characterised (shown on a one-entry archive targeting a missing `foo`
directory), and the user-mods-only archive gets zero problem paths and a
successful install although `~mods` does not exist. -/
theorem pre_install_check_exact_and_mods_archive_ok_witness :
    ("foo/bar.pak" ∈ pre_install_check c4State [⟨"foo\\bar.pak", false, [1]⟩]) ∧
    ((∀ e ∈ c8Entries, e.isDir = false →
        isModsRel (normSlashes e.filename) = true) ∧
      pre_install_check c4State c8Entries = [] ∧
      (c4State.mods.any (fun m => m.name = modName "pack.zip") = false →
        (install_mod "pack.zip" c8Entries none c4State).2 = .ok) ∧
      (install_mod "pack.zip" c8Entries none c4State).2 = .ok) :=
  ⟨(pre_install_check_exact_and_mods_archive_ok.1 c4State
      [⟨"foo\\bar.pak", false, [1]⟩] "foo/bar.pak").mpr
    ⟨⟨"foo\\bar.pak", false, [1]⟩, by decide, by decide, by decide, by decide,
      by decide⟩,
   by decide,
   (pre_install_check_exact_and_mods_archive_ok.2 "pack.zip" c4State c8Entries
     (by decide)).1,
   (pre_install_check_exact_and_mods_archive_ok.2 "pack.zip" c4State c8Entries
     (by decide)).2,
   (pre_install_check_exact_and_mods_archive_ok.2 "pack.zip" c4State c8Entries
     (by decide)).2 (by decide)⟩

/-! ### C5: double toggle

The two rename passes of a double toggle are inverse permutations of the
same source/destination pairs; the inversion is proved once for any pair
list whose destinations are fresh and disjoint from the sources. -/

/-- Extensional equality of file trees: same content under every name. -/
def FsEq (a b : List (String × Bytes)) : Prop :=
  ∀ n, lookupA n a = lookupA n b

theorem FsEq.rfl {a : List (String × Bytes)} : FsEq a a := fun _ => Eq.refl _

theorem FsEq.trans {a b c : List (String × Bytes)} (h1 : FsEq a b)
    (h2 : FsEq b c) : FsEq a c := fun n => (h1 n).trans (h2 n)

theorem disabledName_ne (f : String) : ¬ disabledName f = f := by
  intro h
  have hl := congrArg String.length h
  rw [disabledName, String.length_append] at hl
  have h9 : (".disabled" : String).length = 9 := rfl
  rw [h9] at hl
  omega

theorem disabledName_inj {f g : String} (h : disabledName f = disabledName g) :
    f = g := by
  have hd := congrArg String.data h
  rw [disabledName, disabledName, String.data_append, String.data_append] at hd
  exact String.ext (List.append_cancel_right hd)

theorem lookupA_mvStep (fl : List (String × Bytes)) (p : String × String)
    (n : String) :
    lookupA n (mvStep fl p) =
      match lookupA p.1 fl with
      | some c => if p.2 = n then some c
                  else if p.1 = n then none else lookupA n fl
      | none => lookupA n fl := by
  unfold mvStep
  rcases h : lookupA p.1 fl with _ | c
  · rfl
  · rw [lookupA_insertA, lookupA_eraseA]

theorem mvStep_congr {a b : List (String × Bytes)} (h : FsEq a b)
    (p : String × String) : FsEq (mvStep a p) (mvStep b p) := by
  intro n
  rw [lookupA_mvStep, lookupA_mvStep, h p.1, h n]

theorem movePairs_congr :
    ∀ (ps : List (String × String)) {a b : List (String × Bytes)},
      FsEq a b → FsEq (movePairs a ps) (movePairs b ps) := by
  intro ps
  induction ps with
  | nil => intro a b h; exact h
  | cons p rest ih =>
    intro a b h
    exact ih (mvStep_congr h p)

theorem lookupA_mvStep_far {fl : List (String × Bytes)} {p : String × String}
    {n : String} (h1 : ¬ p.1 = n) (h2 : ¬ p.2 = n) :
    lookupA n (mvStep fl p) = lookupA n fl := by
  rw [lookupA_mvStep]
  rcases h : lookupA p.1 fl with _ | c
  · rfl
  · show (if p.2 = n then some c else if p.1 = n then none else lookupA n fl)
      = lookupA n fl
    rw [if_neg h2, if_neg h1]

theorem movePairs_skip (s : String) :
    ∀ (ps : List (String × String)) (fl : List (String × Bytes)),
      lookupA s fl = none →
      (∀ p ∈ ps, ¬ p.2 = s) →
      movePairs fl ps
        = movePairs fl (ps.filter (fun p => decide (¬ p.1 = s))) := by
  intro ps
  induction ps with
  | nil => intro fl _ _; rfl
  | cons p rest ih =>
    intro fl habs hdest
    by_cases hps : p.1 = s
    · have hstep : mvStep fl p = fl := by
        unfold mvStep
        rw [hps, habs]
      have hfilter : (p :: rest).filter (fun p => decide (¬ p.1 = s))
          = rest.filter (fun p => decide (¬ p.1 = s)) := by
        simp [List.filter_cons, hps]
      rw [hfilter]
      show movePairs (mvStep fl p) rest = _
      rw [hstep]
      exact ih fl habs (fun q hq => hdest q (by simp [hq]))
    · have habs2 : lookupA s (mvStep fl p) = none := by
        rw [lookupA_mvStep_far hps (hdest p (by simp))]
        exact habs
      have hfilter : (p :: rest).filter (fun p => decide (¬ p.1 = s))
          = p :: rest.filter (fun p => decide (¬ p.1 = s)) := by
        simp [List.filter_cons, hps]
      rw [hfilter]
      show movePairs (mvStep fl p) rest = movePairs (mvStep fl p) _
      exact ih (mvStep fl p) habs2 (fun q hq => hdest q (by simp [hq]))

theorem mvStep_comm {p q : String × String} (h1 : ¬ p.1 = q.1)
    (h2 : ¬ p.1 = q.2) (h3 : ¬ p.2 = q.1) (h4 : ¬ p.2 = q.2)
    (fl : List (String × Bytes)) :
    FsEq (mvStep (mvStep fl p) q) (mvStep (mvStep fl q) p) := by
  intro n
  have hq1 : lookupA q.1 (mvStep fl p) = lookupA q.1 fl :=
    lookupA_mvStep_far h1 h3
  have hp1 : lookupA p.1 (mvStep fl q) = lookupA p.1 fl :=
    lookupA_mvStep_far (fun he => h1 he.symm) (fun he => h2 he.symm)
  rw [lookupA_mvStep (mvStep fl p) q n, hq1, lookupA_mvStep fl p n,
    lookupA_mvStep (mvStep fl q) p n, hp1, lookupA_mvStep fl q n]
  rcases lookupA p.1 fl with _ | c <;> rcases lookupA q.1 fl with _ | d <;>
    split_ifs <;> simp_all

theorem mvStep_movePairs_comm :
    ∀ (ps : List (String × String)) (q : String × String)
      (fl : List (String × Bytes)),
      (∀ p ∈ ps, ¬ p.1 = q.1 ∧ ¬ p.1 = q.2 ∧ ¬ p.2 = q.1 ∧ ¬ p.2 = q.2) →
      FsEq (mvStep (movePairs fl ps) q) (movePairs (mvStep fl q) ps) := by
  intro ps
  induction ps with
  | nil => intro q fl _; exact FsEq.rfl
  | cons p rest ih =>
    intro q fl hdisj
    obtain ⟨d1, d2, d3, d4⟩ := hdisj p (by simp)
    have step1 : FsEq (mvStep (movePairs (mvStep fl p) rest) q)
        (movePairs (mvStep (mvStep fl p) q) rest) :=
      ih q (mvStep fl p) (fun x hx => hdisj x (by simp [hx]))
    have step2 : FsEq (movePairs (mvStep (mvStep fl p) q) rest)
        (movePairs (mvStep (mvStep fl q) p) rest) :=
      movePairs_congr rest (mvStep_comm d1 d2 d3 d4 fl)
    exact step1.trans step2

theorem mvStep_invert (q : String × String) (fl : List (String × Bytes))
    (habs : lookupA q.2 fl = none) :
    FsEq (mvStep (mvStep fl q) (q.2, q.1)) fl := by
  intro n
  rcases h : lookupA q.1 fl with _ | c
  · have hid : mvStep fl q = fl := by
      unfold mvStep
      rw [h]
    rw [hid]
    unfold mvStep
    rw [show lookupA (q.2, q.1).1 fl = none from habs]
  · have hσ : mvStep fl q = insertA q.2 c (eraseA q.1 fl) := by
      unfold mvStep
      rw [h]
    rw [hσ]
    have h2 : lookupA q.2 (insertA q.2 c (eraseA q.1 fl)) = some c := by
      rw [lookupA_insertA]
      simp
    unfold mvStep
    rw [show lookupA (q.2, q.1).1 (insertA q.2 c (eraseA q.1 fl)) = some c
      from h2]
    show lookupA n (insertA q.1 c (eraseA q.2 (insertA q.2 c (eraseA q.1 fl))))
      = lookupA n fl
    rw [lookupA_insertA, lookupA_eraseA, lookupA_insertA, lookupA_eraseA]
    by_cases h1n : q.1 = n
    · rw [if_pos h1n, ← h1n, h]
    · rw [if_neg h1n]
      by_cases h2n : q.2 = n
      · rw [if_pos h2n, ← h2n, habs]
      · rw [if_neg h2n, if_neg h2n, if_neg h1n]

theorem lookupA_mvStep_src (p : String × String)
    (X : List (String × Bytes)) (hne : ¬ p.2 = p.1) :
    lookupA p.1 (mvStep X p) = none := by
  rw [lookupA_mvStep]
  rcases h : lookupA p.1 X with _ | c
  · rfl
  · show (if p.2 = p.1 then some c else if p.1 = p.1 then none else some c)
      = none
    rw [if_neg hne, if_pos rfl]

theorem movePairs_roundtrip :
    ∀ (N : Nat) (ps : List (String × String)) (fl : List (String × Bytes)),
      ps.length ≤ N →
      (∀ p ∈ ps, lookupA p.2 fl = none) →
      (∀ p ∈ ps, ∀ q ∈ ps, ¬ p.2 = q.1) →
      (∀ p ∈ ps, ∀ q ∈ ps, p.2 = q.2 → p.1 = q.1) →
      (∀ p ∈ ps, ∀ q ∈ ps, p.1 = q.1 → p.2 = q.2) →
      (∀ p ∈ ps, ¬ p.1 = p.2) →
      FsEq (movePairs (movePairs fl ps) (ps.map (fun p => (p.2, p.1)))) fl := by
  intro N
  induction N with
  | zero =>
    intro ps fl hlen _ _ _ _ _
    have : ps = [] := List.length_eq_zero.mp (Nat.le_zero.mp hlen)
    subst this
    exact FsEq.rfl
  | succ N ih =>
    intro ps fl hlen c1 c2 c3 c4 c5
    cases ps with
    | nil => exact FsEq.rfl
    | cons q r =>
      have hqmem : q ∈ q :: r := by simp
      have hq5 : ¬ q.1 = q.2 := c5 q hqmem
      -- after the first step the source of q is gone
      have hs1 : lookupA q.1 (mvStep fl q) = none :=
        lookupA_mvStep_src q fl (fun he => hq5 he.symm)
      -- duplicates of q in r are skipped by the first pass
      have hskip1 : movePairs (mvStep fl q) r
          = movePairs (mvStep fl q) (r.filter (fun p => decide (¬ p.1 = q.1))) :=
        movePairs_skip q.1 r (mvStep fl q) hs1
          (fun p hp => c2 p (by simp [hp]) q hqmem)
      set r0 := r.filter (fun p => decide (¬ p.1 = q.1)) with hr0
      have hr0mem : ∀ p ∈ r0, p ∈ q :: r := by
        intro p hp
        have := List.mem_filter.mp hp
        simp [this.1]
      have hr0ne : ∀ p ∈ r0, ¬ p.1 = q.1 := by
        intro p hp
        have := List.mem_filter.mp hp
        simpa using this.2
      -- after the swapped head step the source of the swapped q is gone
      have hs2 : ∀ X : List (String × Bytes),
          lookupA q.2 (mvStep X (q.2, q.1)) = none :=
        fun X => lookupA_mvStep_src (q.2, q.1) X hq5
      -- duplicates of the swapped q in the swapped tail are skipped too
      have hskip2 : ∀ X : List (String × Bytes),
          movePairs (mvStep X (q.2, q.1)) (r.map (fun p => (p.2, p.1)))
            = movePairs (mvStep X (q.2, q.1)) (r0.map (fun p => (p.2, p.1))) := by
        intro X
        rw [movePairs_skip q.2 (r.map (fun p => (p.2, p.1)))
          (mvStep X (q.2, q.1)) (hs2 X)
          (fun p hp => by
            obtain ⟨x, hx, hxe⟩ := List.mem_map.mp hp
            rw [← hxe]
            exact fun he => c2 q hqmem x (by simp [hx]) he.symm)]
        rw [List.filter_map, hr0]
        refine congrArg (movePairs (mvStep X (q.2, q.1))) ?_
        refine congrArg (List.map (fun p : String × String => (p.2, p.1))) ?_
        apply List.filter_congr
        intro x hx
        simp only [Function.comp]
        by_cases hx2 : x.2 = q.2
        · have hx1 : x.1 = q.1 := c3 x (by simp [hx]) q hqmem hx2
          simp [hx1, hx2]
        · have hx1 : ¬ x.1 = q.1 := fun he => hx2 (c4 x (by simp [hx]) q hqmem he)
          simp [hx1, hx2]
      -- disjointness of the swapped head pair from the reduced tail
      have hdisj : ∀ p ∈ r0, ¬ p.1 = (q.2, q.1).1 ∧ ¬ p.1 = (q.2, q.1).2 ∧
          ¬ p.2 = (q.2, q.1).1 ∧ ¬ p.2 = (q.2, q.1).2 := by
        intro p hp
        have hpm : p ∈ q :: r := hr0mem p hp
        refine ⟨?_, ?_, ?_, ?_⟩
        · exact fun he => c2 q hqmem p hpm he.symm
        · exact hr0ne p hp
        · show ¬ p.2 = q.2
          intro he
          exact hr0ne p hp (c3 p hpm q hqmem he)
        · show ¬ p.2 = q.1
          exact c2 p hpm q hqmem
      -- assemble
      show FsEq (movePairs (movePairs (mvStep fl q) r)
        ((q.2, q.1) :: r.map (fun p => (p.2, p.1)))) fl
      rw [hskip1]
      show FsEq (movePairs
        (mvStep (movePairs (mvStep fl q) r0) (q.2, q.1))
        (r.map (fun p => (p.2, p.1)))) fl
      rw [hskip2]
      have hcomm : FsEq (mvStep (movePairs (mvStep fl q) r0) (q.2, q.1))
          (movePairs (mvStep (mvStep fl q) (q.2, q.1)) r0) :=
        mvStep_movePairs_comm r0 (q.2, q.1) (mvStep fl q) hdisj
      have hinv : FsEq (mvStep (mvStep fl q) (q.2, q.1)) fl :=
        mvStep_invert q fl (c1 q hqmem)
      have hmid : FsEq (movePairs (mvStep (mvStep fl q) (q.2, q.1)) r0)
          (movePairs fl r0) :=
        movePairs_congr r0 hinv
      have hih : FsEq (movePairs (movePairs fl r0)
          (r0.map (fun p => (p.2, p.1)))) fl := by
        refine ih r0 fl ?_ ?_ ?_ ?_ ?_ ?_
        · calc r0.length ≤ r.length := List.length_filter_le _ _
            _ ≤ N := by simpa using Nat.le_of_succ_le_succ hlen
        · exact fun p hp => c1 p (hr0mem p hp)
        · exact fun p hp x hx => c2 p (hr0mem p hp) x (hr0mem x hx)
        · exact fun p hp x hx => c3 p (hr0mem p hp) x (hr0mem x hx)
        · exact fun p hp x hx => c4 p (hr0mem p hp) x (hr0mem x hx)
        · exact fun p hp => c5 p (hr0mem p hp)
      exact ((movePairs_congr (r0.map (fun p => (p.2, p.1)))
        (hcomm.trans hmid)).trans hih)

theorem toggleInMods_double (name : String) :
    ∀ (mods : List Mod) (fl : List (String × Bytes)),
      (∀ m ∈ mods, m.name = name →
        (m.status = "enabled" ∨ m.status = "disabled") ∧
        (∀ f ∈ m.files, ¬ disabledName f ∈ m.files) ∧
        (if m.status = "enabled"
         then ∀ f ∈ m.files, lookupA (disabledName f) fl = none
         else ∀ f ∈ m.files, lookupA f fl = none)) →
      (toggleInMods (toggleInMods mods fl name).1
        (toggleInMods mods fl name).2.1 name).1 = mods ∧
      FsEq (toggleInMods (toggleInMods mods fl name).1
        (toggleInMods mods fl name).2.1 name).2.1 fl := by
  intro mods
  induction mods with
  | nil => intro fl _; exact ⟨rfl, fun _ => Eq.refl _⟩
  | cons m rest ih =>
    intro fl hyp
    obtain ⟨mn, ms, mf⟩ := m
    by_cases hm : mn = name
    · obtain ⟨hstat, halias, hfree⟩ := hyp ⟨mn, ms, mf⟩ (List.mem_cons_self _ _) hm
      rcases hstat with hE | hD
      · have hE2 : ms = "enabled" := hE
        subst hE2
        rw [if_pos rfl] at hfree
        have h1 : toggleInMods (⟨mn, "enabled", mf⟩ :: rest) fl name
            = (⟨mn, "disabled", mf⟩ :: rest,
               movePairs fl (mf.map (fun f => (f, disabledName f))), true) := by
          simp only [toggleInMods]
          rw [if_pos hm]
          rfl
        have h2 : toggleInMods (⟨mn, "disabled", mf⟩ :: rest)
            (movePairs fl (mf.map (fun f => (f, disabledName f)))) name
            = (⟨mn, "enabled", mf⟩ :: rest,
               movePairs (movePairs fl (mf.map (fun f => (f, disabledName f))))
                 (mf.map (fun f => (disabledName f, f))), true) := by
          simp only [toggleInMods]
          rw [if_pos hm]
          rfl
        rw [h1]
        show (toggleInMods (⟨mn, "disabled", mf⟩ :: rest)
            (movePairs fl (mf.map (fun f => (f, disabledName f)))) name).1
              = _ ∧ FsEq (toggleInMods (⟨mn, "disabled", mf⟩ :: rest)
            (movePairs fl (mf.map (fun f => (f, disabledName f)))) name).2.1 fl
        rw [h2]
        refine ⟨rfl, ?_⟩
        show FsEq (movePairs (movePairs fl
          (mf.map (fun f => (f, disabledName f))))
          (mf.map (fun f => (disabledName f, f)))) fl
        have hswap : mf.map (fun f => (disabledName f, f))
            = (mf.map (fun f => (f, disabledName f))).map
                (fun p => (p.2, p.1)) := by
          rw [List.map_map]
          rfl
        rw [hswap]
        refine movePairs_roundtrip
          (mf.map (fun f => (f, disabledName f))).length _ fl le_rfl
          ?_ ?_ ?_ ?_ ?_
        · intro p hp
          obtain ⟨f, hf, rfl⟩ := List.mem_map.mp hp
          show lookupA (disabledName f) fl = none
          exact hfree f hf
        · intro p hp x hx
          obtain ⟨f, hf, rfl⟩ := List.mem_map.mp hp
          obtain ⟨g, hg, rfl⟩ := List.mem_map.mp hx
          show ¬ disabledName f = g
          intro he
          exact halias f hf (by rw [he]; exact hg)
        · intro p hp x hx
          obtain ⟨f, hf, rfl⟩ := List.mem_map.mp hp
          obtain ⟨g, hg, rfl⟩ := List.mem_map.mp hx
          show disabledName f = disabledName g → f = g
          exact fun he => disabledName_inj he
        · intro p hp x hx
          obtain ⟨f, hf, rfl⟩ := List.mem_map.mp hp
          obtain ⟨g, hg, rfl⟩ := List.mem_map.mp hx
          show f = g → disabledName f = disabledName g
          exact fun he => congrArg disabledName he
        · intro p hp
          obtain ⟨f, hf, rfl⟩ := List.mem_map.mp hp
          show ¬ f = disabledName f
          exact fun he2 => disabledName_ne f he2.symm
      · have hD2 : ms = "disabled" := hD
        subst hD2
        rw [if_neg (show ¬ ("disabled" : String) = "enabled" by decide)] at hfree
        have h1 : toggleInMods (⟨mn, "disabled", mf⟩ :: rest) fl name
            = (⟨mn, "enabled", mf⟩ :: rest,
               movePairs fl (mf.map (fun f => (disabledName f, f))), true) := by
          simp only [toggleInMods]
          rw [if_pos hm]
          rfl
        have h2 : toggleInMods (⟨mn, "enabled", mf⟩ :: rest)
            (movePairs fl (mf.map (fun f => (disabledName f, f)))) name
            = (⟨mn, "disabled", mf⟩ :: rest,
               movePairs (movePairs fl (mf.map (fun f => (disabledName f, f))))
                 (mf.map (fun f => (f, disabledName f))), true) := by
          simp only [toggleInMods]
          rw [if_pos hm]
          rfl
        rw [h1]
        show (toggleInMods (⟨mn, "enabled", mf⟩ :: rest)
            (movePairs fl (mf.map (fun f => (disabledName f, f)))) name).1
              = _ ∧ FsEq (toggleInMods (⟨mn, "enabled", mf⟩ :: rest)
            (movePairs fl (mf.map (fun f => (disabledName f, f)))) name).2.1 fl
        rw [h2]
        refine ⟨rfl, ?_⟩
        show FsEq (movePairs (movePairs fl
          (mf.map (fun f => (disabledName f, f))))
          (mf.map (fun f => (f, disabledName f)))) fl
        have hswap : mf.map (fun f => (f, disabledName f))
            = (mf.map (fun f => (disabledName f, f))).map
                (fun p => (p.2, p.1)) := by
          rw [List.map_map]
          rfl
        rw [hswap]
        refine movePairs_roundtrip
          (mf.map (fun f => (disabledName f, f))).length _ fl le_rfl
          ?_ ?_ ?_ ?_ ?_
        · intro p hp
          obtain ⟨f, hf, rfl⟩ := List.mem_map.mp hp
          show lookupA f fl = none
          exact hfree f hf
        · intro p hp x hx
          obtain ⟨f, hf, rfl⟩ := List.mem_map.mp hp
          obtain ⟨g, hg, rfl⟩ := List.mem_map.mp hx
          show ¬ f = disabledName g
          intro he
          exact halias g hg (by rw [← he]; exact hf)
        · intro p hp x hx
          obtain ⟨f, hf, rfl⟩ := List.mem_map.mp hp
          obtain ⟨g, hg, rfl⟩ := List.mem_map.mp hx
          show f = g → disabledName f = disabledName g
          exact fun he => congrArg disabledName he
        · intro p hp x hx
          obtain ⟨f, hf, rfl⟩ := List.mem_map.mp hp
          obtain ⟨g, hg, rfl⟩ := List.mem_map.mp hx
          show disabledName f = disabledName g → f = g
          exact fun he => disabledName_inj he
        · intro p hp
          obtain ⟨f, hf, rfl⟩ := List.mem_map.mp hp
          show ¬ disabledName f = f
          exact disabledName_ne f
    · have h1 : toggleInMods (⟨mn, ms, mf⟩ :: rest) fl name
          = (⟨mn, ms, mf⟩ :: (toggleInMods rest fl name).1,
             (toggleInMods rest fl name).2) := by
        simp only [toggleInMods]
        rw [if_neg hm]
      rw [h1]
      show (toggleInMods (⟨mn, ms, mf⟩ :: (toggleInMods rest fl name).1)
          (toggleInMods rest fl name).2.1 name).1 = _ ∧
        FsEq (toggleInMods (⟨mn, ms, mf⟩ :: (toggleInMods rest fl name).1)
          (toggleInMods rest fl name).2.1 name).2.1 fl
      have h2 : toggleInMods (⟨mn, ms, mf⟩ :: (toggleInMods rest fl name).1)
          (toggleInMods rest fl name).2.1 name
          = (⟨mn, ms, mf⟩ :: (toggleInMods (toggleInMods rest fl name).1
               (toggleInMods rest fl name).2.1 name).1,
             (toggleInMods (toggleInMods rest fl name).1
               (toggleInMods rest fl name).2.1 name).2) := by
        simp only [toggleInMods]
        rw [if_neg hm]
      rw [h2]
      obtain ⟨ihm, ihf⟩ := ih fl (fun x hx hxn => hyp x (by simp [hx]) hxn)
      exact ⟨by rw [ihm], ihf⟩

theorem any_map_name (l : List Mod) (name : String) :
    (l.map Mod.name).any (fun s => s = name) = l.any (fun m => m.name = name) := by
  induction l with
  | nil => rfl
  | cons m rest ih => simp [List.any_cons, ih]

theorem toggleInMods_flag :
    ∀ (mods : List Mod) (fl : List (String × Bytes)) (name : String),
      (toggleInMods mods fl name).2.2 = mods.any (fun m => m.name = name) := by
  intro mods
  induction mods with
  | nil => intro fl name; rfl
  | cons m rest ih =>
    intro fl name
    by_cases hm : m.name = name
    · simp only [toggleInMods]
      rw [if_pos hm]
      simp [hm]
    · simp only [toggleInMods]
      rw [if_neg hm]
      show (toggleInMods rest fl name).2.2 = _
      rw [ih]
      simp [hm]

theorem toggleInMods_names :
    ∀ (mods : List Mod) (fl : List (String × Bytes)) (name : String),
      (toggleInMods mods fl name).1.map Mod.name = mods.map Mod.name := by
  intro mods
  induction mods with
  | nil => intro fl name; rfl
  | cons m rest ih =>
    intro fl name
    by_cases hm : m.name = name
    · simp only [toggleInMods]
      rw [if_pos hm]
      rfl
    · simp only [toggleInMods]
      rw [if_neg hm]
      show m.name :: (toggleInMods rest fl name).1.map Mod.name = _
      rw [ih]
      rfl

/-- A mod whose tracked file exists only under its marker-suffixed name
while the mod is recorded as enabled (the prior-partial-state situation
the claim says is tolerated). -/
def c5CexState : ModMgrState :=
  { mods := [{ name := "m", status := "enabled", files := ["f"] }],
    fs := { files := [("f.disabled", [5])], dirs := [] } }

/-- C5 counterexample: on `c5CexState` the first toggle skips the missing
`f` (source absent is skipped, per the claim), but the second toggle
finds `f.disabled` and renames it to `f` — so after two toggles the
on-disk arrangement differs from the original, refuting the claimed
idempotence for states with missing tracked files. -/
theorem toggle_twice_cex :
    ((c5CexState.mods.any (fun m => m.name = "m")) = true) ∧
    ¬ lookupA "f.disabled"
        (toggle_mod_status "m" (toggle_mod_status "m" c5CexState).1).1.fs.files
      = lookupA "f.disabled" c5CexState.fs.files := by
  refine ⟨by decide, by decide⟩

/-- C5 (amended): toggling a registered mod (status `enabled` or
`disabled`) twice returns the tracked-file arrangement and the mod's
status to their original values, provided no tracked file is currently
present on disk under its *opposite-status* name (its marker-suffixed
name for an enabled mod, its canonical name for a disabled one — tracked
files missing under both names are fine and are skipped), and no tracked
file's marker-suffixed name is itself a tracked file of the mod; both
calls acknowledge the mod with `True`. -/
theorem toggle_mod_status_twice_restores (name : String) (st : ModMgrState)
    (hyp : ∀ m ∈ st.mods, m.name = name →
      (m.status = "enabled" ∨ m.status = "disabled") ∧
      (∀ f ∈ m.files, ¬ disabledName f ∈ m.files) ∧
      (if m.status = "enabled"
       then ∀ f ∈ m.files, lookupA (disabledName f) st.fs.files = none
       else ∀ f ∈ m.files, lookupA f st.fs.files = none)) :
    (toggle_mod_status name (toggle_mod_status name st).1).1.mods = st.mods ∧
    (∀ n, lookupA n
        (toggle_mod_status name (toggle_mod_status name st).1).1.fs.files
      = lookupA n st.fs.files) ∧
    ((∃ m ∈ st.mods, m.name = name) →
      (toggle_mod_status name st).2 = true ∧
      (toggle_mod_status name (toggle_mod_status name st).1).2 = true) := by
  obtain ⟨hmods, hfs⟩ := toggleInMods_double name st.mods st.fs.files hyp
  refine ⟨hmods, hfs, ?_⟩
  rintro ⟨m, hmem, hname⟩
  have hany : st.mods.any (fun m => m.name = name) = true :=
    List.any_eq_true.mpr ⟨m, hmem, by simp [hname]⟩
  constructor
  · show (toggleInMods st.mods st.fs.files name).2.2 = true
    rw [toggleInMods_flag, hany]
  · show (toggleInMods (toggleInMods st.mods st.fs.files name).1
      (toggleInMods st.mods st.fs.files name).2.1 name).2.2 = true
    rw [toggleInMods_flag]
    calc ((toggleInMods st.mods st.fs.files name).1).any
          (fun m => m.name = name)
        = (((toggleInMods st.mods st.fs.files name).1).map Mod.name).any
            (fun s => s = name) := (any_map_name _ _).symm
      _ = ((st.mods).map Mod.name).any (fun s => s = name) := by
          rw [toggleInMods_names]
      _ = st.mods.any (fun m => m.name = name) := any_map_name _ _
      _ = true := hany

/-- A well-placed enabled mod: its file is on disk under the canonical
name only. -/
def c5WitnessState : ModMgrState :=
  { mods := [{ name := "m", status := "enabled", files := ["f"] }],
    fs := { files := [("f", [7]), ("x.txt", [0])], dirs := [] } }

/-- Witness instantiating the amended C5 theorem on `c5WitnessState`,
checking the restored lookup at the tracked file's both names. -/
theorem toggle_mod_status_twice_restores_witness :
    (∀ m ∈ c5WitnessState.mods, m.name = "m" →
      (m.status = "enabled" ∨ m.status = "disabled") ∧
      (∀ f ∈ m.files, ¬ disabledName f ∈ m.files) ∧
      (if m.status = "enabled"
       then ∀ f ∈ m.files, lookupA (disabledName f) c5WitnessState.fs.files = none
       else ∀ f ∈ m.files, lookupA f c5WitnessState.fs.files = none)) ∧
    ((toggle_mod_status "m" (toggle_mod_status "m" c5WitnessState).1).1.mods
        = c5WitnessState.mods ∧
      lookupA "f"
          (toggle_mod_status "m" (toggle_mod_status "m" c5WitnessState).1).1.fs.files
        = lookupA "f" c5WitnessState.fs.files ∧
      lookupA "f.disabled"
          (toggle_mod_status "m" (toggle_mod_status "m" c5WitnessState).1).1.fs.files
        = lookupA "f.disabled" c5WitnessState.fs.files ∧
      (toggle_mod_status "m" c5WitnessState).2 = true) :=
  ⟨by decide,
   (toggle_mod_status_twice_restores "m" c5WitnessState (by decide)).1,
   (toggle_mod_status_twice_restores "m" c5WitnessState (by decide)).2.1 "f",
   (toggle_mod_status_twice_restores "m" c5WitnessState (by decide)).2.1
     "f.disabled",
   ((toggle_mod_status_twice_restores "m" c5WitnessState (by decide)).2.2
     ⟨⟨"m", "enabled", ["f"]⟩, by decide, by decide⟩).1⟩
